import Mathlib

/-!
Verification development for `update_hic_header_stream.cpp`, a tool that
edits metadata attributes in the header of a `.hic` binary container and
patches every stored absolute byte offset by the size delta of the edit.

The program is embedded shallowly: bytes are `Fin 256`, files are
`List Byte`, machine integers are `Int` with explicit two's-complement
encoding and decoding, and each pass of `main` becomes a Lean function
(`parseHeader` for pass 1, `buildNewAttrs` for pass 2, `writeOutput` for
the streaming rewrite, `patchPointers` for pass 3).
-/

abbrev Byte := Fin 256

/-- Little-endian value of a byte list (least significant byte first). -/
def bytesToNatLE : List Byte → Nat
  | [] => 0
  | b :: r => b.val + 256 * bytesToNatLE r

/-- The `n` little-endian bytes of a natural number. -/
def natToBytesLE : Nat → Nat → List Byte
  | 0, _ => []
  | n + 1, v => ⟨v % 256, Nat.mod_lt _ (by norm_num)⟩ :: natToBytesLE n (v / 256)

/-- Two's-complement reading of a natural number as a signed `w`-byte value. -/
def toSigned (w : Nat) (n : Nat) : Int :=
  if n % 2 ^ (8 * w) < 2 ^ (8 * w - 1) then ((n % 2 ^ (8 * w) : Nat) : Int)
  else ((n % 2 ^ (8 * w) : Nat) : Int) - 2 ^ (8 * w)

/-- Models `readInt32LE` (memcpy of 4 little-endian bytes into an `int32_t`). -/
def readInt32LE (l : List Byte) : Int := toSigned 4 (bytesToNatLE (l.take 4))

/-- Models `readInt64LE` (memcpy of 8 little-endian bytes into an `int64_t`). -/
def readInt64LE (l : List Byte) : Int := toSigned 8 (bytesToNatLE (l.take 8))

/-- Models `writeInt32LE`: the 4 little-endian bytes of an `int32_t`. -/
def writeInt32LE (v : Int) : List Byte := natToBytesLE 4 (v % (2 ^ 32 : Int)).toNat

/-- Models `writeInt64LE`: the 8 little-endian bytes of an `int64_t`. -/
def writeInt64LE (v : Int) : List Byte := natToBytesLE 8 (v % (2 ^ 64 : Int)).toNat

theorem length_natToBytesLE (n v : Nat) : (natToBytesLE n v).length = n := by
  induction n generalizing v with
  | zero => rfl
  | succ n ih => simp [natToBytesLE, ih]

theorem take_natToBytesLE (n v : Nat) : (natToBytesLE n v).take n = natToBytesLE n v :=
  List.take_of_length_le (le_of_eq (length_natToBytesLE n v))

theorem bytesToNatLE_natToBytesLE (n v : Nat) :
    bytesToNatLE (natToBytesLE n v) = v % 256 ^ n := by
  induction n generalizing v with
  | zero => simp [natToBytesLE, bytesToNatLE, Nat.mod_one]
  | succ n ih =>
      simp only [natToBytesLE, bytesToNatLE, ih]
      rw [pow_succ, mul_comm (256 ^ n) 256, Nat.mod_mul]

theorem bytesToNatLE_lt (l : List Byte) : bytesToNatLE l < 256 ^ l.length := by
  induction l with
  | nil => simp [bytesToNatLE]
  | cons b r ih =>
      simp only [bytesToNatLE, List.length_cons, pow_succ]
      have hb := b.isLt
      nlinarith

theorem natToBytesLE_bytesToNatLE (l : List Byte) :
    natToBytesLE l.length (bytesToNatLE l) = l := by
  induction l with
  | nil => rfl
  | cons b r ih =>
      simp only [List.length_cons, natToBytesLE, bytesToNatLE]
      have hb := b.isLt
      have h1 : (b.val + 256 * bytesToNatLE r) % 256 = b.val := by omega
      have h2 : (b.val + 256 * bytesToNatLE r) / 256 = bytesToNatLE r := by omega
      rw [List.cons_eq_cons]
      exact ⟨Fin.ext h1, by rw [h2, ih]⟩

/-- Reading back 8 written bytes recovers any value in `int64_t` range. -/
theorem readInt64LE_writeInt64LE (v : Int) (h0 : -(2 ^ 63) ≤ v) (h1 : v < 2 ^ 63) :
    readInt64LE (writeInt64LE v) = v := by
  unfold readInt64LE writeInt64LE toSigned
  rw [take_natToBytesLE, bytesToNatLE_natToBytesLE]
  norm_num at h0 h1 ⊢
  split <;> omega

/-- Reading back 4 written bytes recovers any value in `int32_t` range. -/
theorem readInt32LE_writeInt32LE (v : Int) (h0 : -(2 ^ 31) ≤ v) (h1 : v < 2 ^ 31) :
    readInt32LE (writeInt32LE v) = v := by
  unfold readInt32LE writeInt32LE toSigned
  rw [take_natToBytesLE, bytesToNatLE_natToBytesLE]
  norm_num at h0 h1 ⊢
  split <;> omega

/-- Writing the value read from an 8-byte block reproduces the block. -/
theorem writeInt64LE_readInt64LE (l : List Byte) (h : l.length = 8) :
    writeInt64LE (readInt64LE l) = l := by
  have hlt : bytesToNatLE l < 2 ^ 64 := by
    have := bytesToNatLE_lt l
    rw [h] at this
    norm_num at this ⊢
    omega
  unfold readInt64LE writeInt64LE toSigned
  rw [List.take_of_length_le (le_of_eq h)]
  have hkey : ((if bytesToNatLE l % 2 ^ (8 * 8) < 2 ^ (8 * 8 - 1)
      then ((bytesToNatLE l % 2 ^ (8 * 8) : Nat) : Int)
      else ((bytesToNatLE l % 2 ^ (8 * 8) : Nat) : Int) - 2 ^ (8 * 8)) % (2 ^ 64 : Int)).toNat
      = bytesToNatLE l := by
    norm_num
    split <;> omega
  rw [hkey]
  conv_rhs => rw [← natToBytesLE_bytesToNatLE l, h]

/-- Writing the value read from a 4-byte block reproduces the block. -/
theorem writeInt32LE_readInt32LE (l : List Byte) (h : l.length = 4) :
    writeInt32LE (readInt32LE l) = l := by
  have hlt : bytesToNatLE l < 2 ^ 32 := by
    have := bytesToNatLE_lt l
    rw [h] at this
    norm_num at this ⊢
    omega
  unfold readInt32LE writeInt32LE toSigned
  rw [List.take_of_length_le (le_of_eq h)]
  have hkey : ((if bytesToNatLE l % 2 ^ (8 * 4) < 2 ^ (8 * 4 - 1)
      then ((bytesToNatLE l % 2 ^ (8 * 4) : Nat) : Int)
      else ((bytesToNatLE l % 2 ^ (8 * 4) : Nat) : Int) - 2 ^ (8 * 4)) % (2 ^ 32 : Int)).toNat
      = bytesToNatLE l := by
    norm_num
    split <;> omega
  rw [hkey]
  conv_rhs => rw [← natToBytesLE_bytesToNatLE l, h]

theorem length_writeInt64LE (v : Int) : (writeInt64LE v).length = 8 :=
  length_natToBytesLE 8 _

theorem length_writeInt32LE (v : Int) : (writeInt32LE v).length = 4 :=
  length_natToBytesLE 4 _

/-- Range of values produced by a signed `w`-byte read. -/
theorem toSigned_range (w : Nat) (hw : 0 < w) (n : Nat) :
    -(2 ^ (8 * w - 1)) ≤ toSigned w n ∧ toSigned w n < 2 ^ (8 * w - 1) := by
  unfold toSigned
  have hm : n % 2 ^ (8 * w) < 2 ^ (8 * w) := Nat.mod_lt _ (by positivity)
  have he : 8 * w = (8 * w - 1) + 1 := by omega
  have hsplit : (2 : Nat) ^ (8 * w) = 2 * 2 ^ (8 * w - 1) := by
    conv_lhs => rw [he]
    rw [pow_succ]
    ring
  have hsplitI : (2 : Int) ^ (8 * w) = 2 * 2 ^ (8 * w - 1) := by
    conv_lhs => rw [he]
    rw [pow_succ]
    ring
  have hcast : ((2 ^ (8 * w - 1) : Nat) : Int) = 2 ^ (8 * w - 1) := by push_cast; ring
  split
  · constructor
    · have : (0 : Int) ≤ ((n % 2 ^ (8 * w) : Nat) : Int) := Int.natCast_nonneg _
      have hp : (0 : Int) < 2 ^ (8 * w - 1) := by positivity
      omega
    · rw [← hcast]
      exact_mod_cast ‹n % 2 ^ (8 * w) < 2 ^ (8 * w - 1)›
  · have hge : 2 ^ (8 * w - 1) ≤ n % 2 ^ (8 * w) := le_of_not_lt ‹¬_›
    have hgeI : ((2 ^ (8 * w - 1) : Nat) : Int) ≤ ((n % 2 ^ (8 * w) : Nat) : Int) :=
      Int.ofNat_le.mpr hge
    have hltI : ((n % 2 ^ (8 * w) : Nat) : Int) < ((2 ^ (8 * w) : Nat) : Int) :=
      Int.ofNat_lt.mpr hm
    have hcast2 : ((2 ^ (8 * w) : Nat) : Int) = 2 ^ (8 * w) := by push_cast; ring
    rw [hcast] at hgeI
    rw [hcast2] at hltI
    constructor <;> [linarith [hsplitI]; linarith [hsplitI]]

/-! ## Attribute data model and value loading -/

/-- `struct AttrKV` (line 25): a key/value pair; text is raw bytes. -/
structure AttrKV where
  key : List Byte
  value : List Byte
deriving DecidableEq

/-- The bytes of the anchor key `software`. -/
def softwareKey : List Byte := [115, 111, 102, 116, 119, 97, 114, 101]

/-- The bytes of the key `statistics`. -/
def statisticsKey : List Byte := [115, 116, 97, 116, 105, 115, 116, 105, 99, 115]

/-- The bytes of the key `graphs`. -/
def graphsKey : List Byte := [103, 114, 97, 112, 104, 115]

theorem drop_one_dropWhile_lt (p : Byte → Bool) (b : Byte) (rest : List Byte) :
    (((b :: rest).dropWhile p).drop 1).length < (b :: rest).length := by
  simp only [List.length_drop]
  have h1 : ((b :: rest).dropWhile p).length ≤ (b :: rest).length :=
    (List.dropWhile_sublist (p := p) (l := b :: rest)).length_le
  simp only [List.length_cons] at h1 ⊢
  omega

/-- Models `load_value_file_text` (lines 30-41): the value file is read with
`std::getline` line by line, and each line is appended to the value followed
by a single newline byte; the loop ends when the remaining content is empty.
Byte 10 is the newline separator consumed by `getline`. -/
def load_value_file_text : List Byte → List Byte
  | [] => []
  | b :: rest =>
      (b :: rest).takeWhile (fun c => c != (10 : Byte)) ++ (10 : Byte) ::
        load_value_file_text (((b :: rest).dropWhile (fun c => c != (10 : Byte))).drop 1)
termination_by content => content.length
decreasing_by
  exact drop_one_dropWhile_lt _ _ _

/-! ## Attribute editor (pass 2) -/

/-- One iteration of the pass-2 loop (lines 192-196): a `software` key
records the current size of the filtered list as the insertion index, and
entries keyed `statistics` or `graphs` are dropped. -/
def filterAttrsStep (st : List AttrKV × Option Nat) (a : AttrKV) : List AttrKV × Option Nat :=
  let idx := if a.key = softwareKey then some st.1.length else st.2
  if a.key ≠ statisticsKey ∧ a.key ≠ graphsKey then (st.1 ++ [a], idx) else (st.1, idx)

/-- Pass 2 (lines 189-207): drop existing `statistics`/`graphs` entries while
recording where the `software` anchor lands, then insert the two new pairs
right after it; `none` models the anchor-not-found failure exit (lines
197-200). -/
def buildNewAttrs (origAttrs : List AttrKV) (statVal graphVal : List Byte) :
    Option (List AttrKV) :=
  let st := origAttrs.foldl filterAttrsStep ([], none)
  match st.2 with
  | none => none
  | some i =>
      some (st.1.take (i + 1) ++
        ⟨statisticsKey, statVal⟩ :: ⟨graphsKey, graphVal⟩ :: st.1.drop (i + 1))

/-- Pre-existing `statistics`/`graphs` entries removed, everything else kept
in order: the effect of the filter part of the pass-2 loop. -/
def removeStatGraphs (l : List AttrKV) : List AttrKV :=
  l.filter (fun a => decide (a.key ≠ statisticsKey ∧ a.key ≠ graphsKey))

/-! ## Delta computation -/

/-- Encoded size of one attribute: `key.size() + 1 + value.size() + 1`
(lines 212 and 214). -/
def attrEncodedSize (a : AttrKV) : Nat := a.key.length + 1 + a.value.length + 1

/-- The accumulation loops of lines 210-214 computing total encoded size. -/
def attrBytesLoop (l : List AttrKV) : Nat :=
  l.foldl (fun acc a => acc + attrEncodedSize a) 0

/-- `size_t delta = newAttrBytes - origAttrBytes` (line 215): unsigned
64-bit subtraction, wrapping modulo `2 ^ 64`. -/
def deltaSizeT (origAttrs newAttrs : List AttrKV) : Nat :=
  ((((attrBytesLoop newAttrs : Int) - attrBytesLoop origAttrs)) % (2 ^ 64 : Int)).toNat

/-- The `(int64_t)delta` reinterpretation used at every patch site
(lines 269, 274, 282, 309, 317, 335). -/
def deltaInt64 (origAttrs newAttrs : List AttrKV) : Int :=
  toSigned 8 (deltaSizeT origAttrs newAttrs)

/-- Serialized form of one attribute as emitted by the rewriter
(lines 234-240): key bytes, NUL, value bytes, NUL. -/
def serializeAttr (a : AttrKV) : List Byte := a.key ++ (0 : Byte) :: a.value ++ [(0 : Byte)]

/-- Serialized form of an attribute list, in order. -/
def serializeAttrs (l : List AttrKV) : List Byte := (l.map serializeAttr).flatten

/-! ## Behavior of the value-file loader -/

theorem load_value_file_text_newline (rest : List Byte) :
    load_value_file_text ((10 : Byte) :: rest) = (10 : Byte) :: load_value_file_text rest := by
  rw [load_value_file_text]
  simp [List.takeWhile_cons, List.dropWhile_cons]

theorem load_value_file_text_single (b : Byte) (hb : b ≠ 10) :
    load_value_file_text [b] = [b, 10] := by
  rw [load_value_file_text]
  have hb' : (b != (10 : Byte)) = true := by simpa using hb
  simp [List.takeWhile_cons, List.dropWhile_cons, hb', load_value_file_text]

theorem load_value_file_text_cons (b c : Byte) (rest : List Byte) (hb : b ≠ 10) :
    load_value_file_text (b :: c :: rest) = b :: load_value_file_text (c :: rest) := by
  rw [load_value_file_text]
  conv_rhs => rw [load_value_file_text]
  have hb' : (b != (10 : Byte)) = true := by simpa using hb
  simp [List.takeWhile_cons, List.dropWhile_cons, hb']

/-- Closed form of the getline loop: each line gets a trailing newline, so
the content is reproduced except that a final unterminated line receives a
newline byte. -/
theorem load_value_file_text_eq (content : List Byte) :
    load_value_file_text content =
      if content = [] then []
      else if content.getLast? = some (10 : Byte) then content
      else content ++ [(10 : Byte)] := by
  induction content with
  | nil => simp [load_value_file_text]
  | cons b rest ih =>
      cases rest with
      | nil =>
          by_cases hb : b = (10 : Byte)
          · subst hb
            rw [load_value_file_text_newline]
            simp [load_value_file_text]
          · rw [load_value_file_text_single b hb]
            simp [hb]
      | cons c tl =>
          have hlast : (b :: c :: tl).getLast? = (c :: tl).getLast? :=
            List.getLast?_cons_cons ..
          by_cases hb : b = (10 : Byte)
          · subst hb
            rw [load_value_file_text_newline, ih, hlast]
            simp only [List.cons_ne_nil, if_false, reduceCtorEq]
            split <;> simp
          · rw [load_value_file_text_cons b c tl hb, ih, hlast]
            simp only [List.cons_ne_nil, if_false, reduceCtorEq]
            split <;> simp

/-- The spec's stated rule for externally sourced values: the file content
as raw bytes, with exactly one trailing null byte stripped if present. -/
def specRawValueStripNull (content : List Byte) : List Byte :=
  if content.getLast? = some (0 : Byte) then content.dropLast else content

/-! ## Behavior of the attribute editor -/

theorem foldl_filterAttrsStep_fst (L : List AttrKV) (acc : List AttrKV) (idx : Option Nat) :
    ∃ j, L.foldl filterAttrsStep (acc, idx) = (acc ++ removeStatGraphs L, j) := by
  induction L generalizing acc idx with
  | nil => exact ⟨idx, by simp [removeStatGraphs]⟩
  | cons a L ih =>
      simp only [List.foldl_cons]
      by_cases hc : a.key ≠ statisticsKey ∧ a.key ≠ graphsKey
      · have hstep : filterAttrsStep (acc, idx) a =
            (acc ++ [a], if a.key = softwareKey then some acc.length else idx) := by
          simp [filterAttrsStep, hc]
        rw [hstep]
        obtain ⟨j, hj⟩ := ih (acc ++ [a]) (if a.key = softwareKey then some acc.length else idx)
        refine ⟨j, ?_⟩
        rw [hj]
        have : removeStatGraphs (a :: L) = a :: removeStatGraphs L := by
          simp [removeStatGraphs, List.filter_cons, hc]
        rw [this]
        simp
      · have hstep : filterAttrsStep (acc, idx) a =
            (acc, if a.key = softwareKey then some acc.length else idx) := by
          simp [filterAttrsStep, hc]
        rw [hstep]
        obtain ⟨j, hj⟩ := ih acc (if a.key = softwareKey then some acc.length else idx)
        refine ⟨j, ?_⟩
        rw [hj]
        have : removeStatGraphs (a :: L) = removeStatGraphs L := by
          simp only [removeStatGraphs, List.filter_cons]
          have : decide (a.key ≠ statisticsKey ∧ a.key ≠ graphsKey) = false := by
            simpa using hc
          rw [this]
          simp
        rw [this]

theorem foldl_filterAttrsStep_no_software (L : List AttrKV) (acc : List AttrKV)
    (idx : Option Nat) (h : ∀ a ∈ L, a.key ≠ softwareKey) :
    L.foldl filterAttrsStep (acc, idx) = (acc ++ removeStatGraphs L, idx) := by
  induction L generalizing acc idx with
  | nil => simp [removeStatGraphs]
  | cons a L ih =>
      have ha : a.key ≠ softwareKey := h a (by simp)
      simp only [List.foldl_cons]
      by_cases hc : a.key ≠ statisticsKey ∧ a.key ≠ graphsKey
      · have hstep : filterAttrsStep (acc, idx) a = (acc ++ [a], idx) := by
          simp [filterAttrsStep, hc, ha]
        rw [hstep, ih (acc ++ [a]) idx (fun a ha' => h a (by simp [ha']))]
        have : removeStatGraphs (a :: L) = a :: removeStatGraphs L := by
          simp [removeStatGraphs, List.filter_cons, hc]
        rw [this]
        simp
      · have hstep : filterAttrsStep (acc, idx) a = (acc, idx) := by
          simp [filterAttrsStep, hc, ha]
        rw [hstep, ih acc idx (fun a ha' => h a (by simp [ha']))]
        have : removeStatGraphs (a :: L) = removeStatGraphs L := by
          simp only [removeStatGraphs, List.filter_cons]
          have : decide (a.key ≠ statisticsKey ∧ a.key ≠ graphsKey) = false := by
            simpa using hc
          rw [this]
          simp
        rw [this]

/-- The pass-2 edit on a list whose final `software` occurrence is made
explicit: existing `statistics`/`graphs` entries are removed everywhere and
the two new pairs land immediately after that occurrence. -/
theorem buildNewAttrs_anchor_split (A B : List AttrKV) (v statVal graphVal : List Byte)
    (hB : ∀ a ∈ B, a.key ≠ softwareKey) :
    buildNewAttrs (A ++ ⟨softwareKey, v⟩ :: B) statVal graphVal =
      some (removeStatGraphs A ++ ⟨softwareKey, v⟩ :: ⟨statisticsKey, statVal⟩ ::
        ⟨graphsKey, graphVal⟩ :: removeStatGraphs B) := by
  unfold buildNewAttrs
  rw [List.foldl_append]
  obtain ⟨j, hj⟩ := foldl_filterAttrsStep_fst A [] none
  rw [hj]
  simp only [List.nil_append, List.foldl_cons]
  have hsw : filterAttrsStep (removeStatGraphs A, j) ⟨softwareKey, v⟩ =
      (removeStatGraphs A ++ [⟨softwareKey, v⟩], some (removeStatGraphs A).length) := by
    have h1 : softwareKey ≠ statisticsKey ∧ softwareKey ≠ graphsKey := by decide
    simp [filterAttrsStep, h1]
  rw [hsw, foldl_filterAttrsStep_no_software B _ _ hB]
  simp only []
  have hlen : (removeStatGraphs A ++ [(⟨softwareKey, v⟩ : AttrKV)]).length
      = (removeStatGraphs A).length + 1 := by simp
  have htake : ((removeStatGraphs A ++ [(⟨softwareKey, v⟩ : AttrKV)]) ++
        removeStatGraphs B).take ((removeStatGraphs A).length + 1)
      = removeStatGraphs A ++ [⟨softwareKey, v⟩] := List.take_left' hlen
  have hdrop : ((removeStatGraphs A ++ [(⟨softwareKey, v⟩ : AttrKV)]) ++
        removeStatGraphs B).drop ((removeStatGraphs A).length + 1)
      = removeStatGraphs B := List.drop_left' hlen
  rw [htake, hdrop]
  simp

theorem foldl_add_attrEncodedSize (l : List AttrKV) (acc : Nat) :
    l.foldl (fun acc a => acc + attrEncodedSize a) acc = acc + (l.map attrEncodedSize).sum := by
  induction l generalizing acc with
  | nil => simp
  | cons a l ih =>
      simp only [List.foldl_cons, List.map_cons, List.sum_cons, ih]
      omega

theorem attrBytesLoop_eq_sum (l : List AttrKV) :
    attrBytesLoop l = (l.map attrEncodedSize).sum := by
  unfold attrBytesLoop
  rw [foldl_add_attrEncodedSize]
  omega

/-- Unsigned 64-bit wraparound subtraction followed by a signed 64-bit
reinterpretation recovers the exact signed difference when both operands are
below `2 ^ 63`. -/
theorem toSigned_wrap_sub (o n : Nat) (ho : o < 2 ^ 63) (hn : n < 2 ^ 63) :
    toSigned 8 ((((n : Int) - o) % (2 ^ 64 : Int)).toNat) = (n : Int) - o := by
  unfold toSigned
  norm_num
  split <;> omega

/-- C2: for an original attribute list with a single `software` anchor and
no pre-existing `statistics`/`graphs` entries, the edit produces the list
with the two new pairs immediately after the anchor, statistics first, then
graphs, and every other attribute in its original relative position. -/
theorem c2_insert_after_anchor (A B : List AttrKV) (v statVal graphVal : List Byte)
    (hA : ∀ a ∈ A, a.key ≠ softwareKey ∧ a.key ≠ statisticsKey ∧ a.key ≠ graphsKey)
    (hB : ∀ a ∈ B, a.key ≠ softwareKey ∧ a.key ≠ statisticsKey ∧ a.key ≠ graphsKey) :
    buildNewAttrs (A ++ ⟨softwareKey, v⟩ :: B) statVal graphVal =
      some (A ++ ⟨softwareKey, v⟩ :: ⟨statisticsKey, statVal⟩ ::
        ⟨graphsKey, graphVal⟩ :: B) := by
  have hA' : removeStatGraphs A = A := by
    apply List.filter_eq_self.mpr
    intro a ha
    simpa using ⟨(hA a ha).2.1, (hA a ha).2.2⟩
  have hB' : removeStatGraphs B = B := by
    apply List.filter_eq_self.mpr
    intro a ha
    simpa using ⟨(hB a ha).2.1, (hB a ha).2.2⟩
  have h := buildNewAttrs_anchor_split A B v statVal graphVal (fun a ha => (hB a ha).1)
  rw [hA', hB'] at h
  exact h

/-- C2 witness at the spec scenario: key order a, software, b becomes
a, software, statistics, graphs, b. -/
theorem c2_insert_after_anchor_witness :
    buildNewAttrs [⟨[97], [120]⟩, ⟨softwareKey, [121]⟩, ⟨[98], [122]⟩] [83] [71] =
      some [⟨[97], [120]⟩, ⟨softwareKey, [121]⟩, ⟨statisticsKey, [83]⟩,
        ⟨graphsKey, [71]⟩, ⟨[98], [122]⟩] := by
  have h := c2_insert_after_anchor [⟨[97], [120]⟩] [⟨[98], [122]⟩] [121] [83] [71]
    (by decide) (by decide)
  simpa using h

/-- C7 counterexample: for the one-byte value file containing `a`, the
loader produces the byte followed by a newline, not the raw content with a
trailing null stripped as the claim states. -/
theorem c7_counterexample :
    load_value_file_text [(97 : Byte)] ≠ specRawValueStripNull [(97 : Byte)] := by
  rw [load_value_file_text_single 97 (by decide)]
  decide

/-- C7 (amended): the externally sourced value is the file content with a
newline appended after each line read by getline: empty content yields an
empty value, content ending in a newline is kept verbatim, and otherwise a
single newline byte is appended; no trailing-null stripping occurs. -/
theorem c7_value_newline_normalization (content : List Byte) :
    load_value_file_text content =
      if content = [] then []
      else if content.getLast? = some (10 : Byte) then content
      else content ++ [(10 : Byte)] :=
  load_value_file_text_eq content

/-- C8 counterexample: with two `software` entries the new pairs are not
inserted after the first occurrence. -/
theorem c8_counterexample :
    buildNewAttrs [⟨softwareKey, [49]⟩, ⟨softwareKey, [50]⟩] [83] [71] ≠
      some [⟨softwareKey, [49]⟩, ⟨statisticsKey, [83]⟩, ⟨graphsKey, [71]⟩,
        ⟨softwareKey, [50]⟩] := by
  decide

/-- C8 (amended): when several entries carry the anchor key `software`, the
edit operates on the last occurrence: the new pairs are inserted immediately
after the final `software` entry (with pre-existing `statistics`/`graphs`
entries removed everywhere). -/
theorem c8_insert_after_last_anchor (A B : List AttrKV) (v statVal graphVal : List Byte)
    (hB : ∀ a ∈ B, a.key ≠ softwareKey) :
    buildNewAttrs (A ++ ⟨softwareKey, v⟩ :: B) statVal graphVal =
      some (removeStatGraphs A ++ ⟨softwareKey, v⟩ :: ⟨statisticsKey, statVal⟩ ::
        ⟨graphsKey, graphVal⟩ :: removeStatGraphs B) :=
  buildNewAttrs_anchor_split A B v statVal graphVal hB

/-- C8 witness: two `software` entries; insertion lands after the second. -/
theorem c8_insert_after_last_anchor_witness :
    buildNewAttrs [⟨softwareKey, [49]⟩, ⟨softwareKey, [50]⟩] [83] [71] =
      some [⟨softwareKey, [49]⟩, ⟨softwareKey, [50]⟩, ⟨statisticsKey, [83]⟩,
        ⟨graphsKey, [71]⟩] := by
  have h := c8_insert_after_last_anchor [⟨softwareKey, [49]⟩] [] [50] [83] [71]
    (by simp)
  simpa [removeStatGraphs] using h

/-- C3: the delta as reinterpreted at every patch site equals the sum of
encoded sizes `len(key)+1+len(value)+1` over the new list minus the same
sum over the original list, and this signed value can be negative, zero, or
positive. -/
theorem c3_delta_is_size_difference (origAttrs newAttrs : List AttrKV)
    (ho : attrBytesLoop origAttrs < 2 ^ 63) (hn : attrBytesLoop newAttrs < 2 ^ 63) :
    deltaInt64 origAttrs newAttrs =
      (((newAttrs.map fun a => a.key.length + 1 + a.value.length + 1).sum : Nat) : Int) -
      (((origAttrs.map fun a => a.key.length + 1 + a.value.length + 1).sum : Nat) : Int) ∧
    (∃ o n : List AttrKV, deltaInt64 o n < 0) ∧
    (∃ o n : List AttrKV, deltaInt64 o n = 0) ∧
    (∃ o n : List AttrKV, 0 < deltaInt64 o n) := by
  refine ⟨?_, ⟨[⟨[], []⟩], [], by decide⟩, ⟨[], [], by decide⟩, ⟨[], [⟨[], []⟩], by decide⟩⟩
  have key := toSigned_wrap_sub (attrBytesLoop origAttrs) (attrBytesLoop newAttrs) ho hn
  unfold deltaInt64 deltaSizeT
  rw [key, attrBytesLoop_eq_sum, attrBytesLoop_eq_sum]
  rfl

/-- C3 witness: one attribute replaced by a one-byte-longer one. -/
theorem c3_delta_is_size_difference_witness :
    attrBytesLoop [(⟨[97], []⟩ : AttrKV)] < 2 ^ 63 ∧
    attrBytesLoop [(⟨[97], [120]⟩ : AttrKV)] < 2 ^ 63 ∧
    deltaInt64 [⟨[97], []⟩] [⟨[97], [120]⟩] =
      ((([(⟨[97], [120]⟩ : AttrKV)].map
          fun a => a.key.length + 1 + a.value.length + 1).sum : Nat) : Int) -
      ((([(⟨[97], []⟩ : AttrKV)].map
          fun a => a.key.length + 1 + a.value.length + 1).sum : Nat) : Int) :=
  ⟨by decide, by decide,
    (c3_delta_is_size_difference [⟨[97], []⟩] [⟨[97], [120]⟩] (by decide) (by decide)).1⟩

/-- C10: the delta is held in an unsigned 64-bit quantity, so a shrinking
edit wraps it modulo `2 ^ 64`; reinterpreting that wrapped value as a
signed 64-bit integer and adding it to any original offset still yields
exactly original plus the signed size difference. -/
theorem c10_wrapped_delta_adds_exactly (origAttrs newAttrs : List AttrKV)
    (ho : attrBytesLoop origAttrs < 2 ^ 63) (hn : attrBytesLoop newAttrs < 2 ^ 63)
    (offset : Int) :
    offset + deltaInt64 origAttrs newAttrs =
      offset + ((attrBytesLoop newAttrs : Int) - (attrBytesLoop origAttrs : Int)) ∧
    (attrBytesLoop newAttrs < attrBytesLoop origAttrs →
      deltaSizeT origAttrs newAttrs =
        2 ^ 64 - (attrBytesLoop origAttrs - attrBytesLoop newAttrs)) := by
  constructor
  · have key := toSigned_wrap_sub (attrBytesLoop origAttrs) (attrBytesLoop newAttrs) ho hn
    unfold deltaInt64 deltaSizeT
    rw [key]
  · intro hlt
    unfold deltaSizeT
    norm_num
    omega

/-- C10 witness: removing a two-byte attribute wraps the stored delta to
`2 ^ 64 - 3` while offsets still move by exactly `-3`. -/
theorem c10_wrapped_delta_adds_exactly_witness :
    attrBytesLoop [(⟨[97], [120]⟩ : AttrKV)] < 2 ^ 63 ∧
    attrBytesLoop ([] : List AttrKV) < 2 ^ 63 ∧
    (1000 + deltaInt64 [⟨[97], [120]⟩] [] =
      1000 + ((attrBytesLoop ([] : List AttrKV) : Int) -
        (attrBytesLoop [(⟨[97], [120]⟩ : AttrKV)] : Int)) ∧
    (attrBytesLoop ([] : List AttrKV) < attrBytesLoop [(⟨[97], [120]⟩ : AttrKV)] →
      deltaSizeT [⟨[97], [120]⟩] [] =
        2 ^ 64 - (attrBytesLoop [(⟨[97], [120]⟩ : AttrKV)] -
          attrBytesLoop ([] : List AttrKV)))) :=
  ⟨by decide, by decide,
    c10_wrapped_delta_adds_exactly [⟨[97], [120]⟩] [] (by decide) (by decide) 1000⟩

/-! ## Pass 1: header reader -/

/-- Everything pass 1 records from the header (lines 88-184). -/
structure ParsedHeader where
  headerBuf : List Byte
  footerPosField : Nat
  origFooterPos : Int
  version : Int
  nviPosField : Nat
  origNviPos : Int
  origNviLen : Int
  attrCountField : Nat
  origAttrCount : Int
  origAttrs : List AttrKV
  attrListEnd : Nat
  chrDictBuf : List Byte
  resolutionBuf : List Byte
  dataStart : Nat
deriving DecidableEq

/-- Read a null-terminated string: the bytes before the first NUL and the
stream after it; `none` when the stream ends first. -/
def readCString : List Byte → Option (List Byte × List Byte)
  | [] => none
  | b :: r =>
      if b = 0 then some ([], r)
      else match readCString r with
        | none => none
        | some (s, rest) => some (b :: s, rest)

/-- Read exactly `n` bytes; `none` when the stream is shorter. -/
def readBytes (n : Nat) (l : List Byte) : Option (List Byte × List Byte) :=
  if n ≤ l.length then some (l.take n, l.drop n) else none

/-- The attribute loop of lines 134-139: `n` pairs of null-terminated
key and value strings. -/
def readAttrEntries : Nat → List Byte → Option (List AttrKV × List Byte)
  | 0, l => some ([], l)
  | n + 1, l => do
      let (k, l1) ← readCString l
      let (v, l2) ← readCString l1
      let (attrs, l3) ← readAttrEntries n l2
      some (⟨k, v⟩ :: attrs, l3)

/-- The chromosome loop of lines 151-164: `n` entries of null-terminated
name plus a 4-byte (version ≤ 8) or 8-byte (version > 8) size; returns the
consumed bytes, which the source pushes into `chrDictBuf`. -/
def readChrEntries (version : Int) : Nat → List Byte → Option (List Byte × List Byte)
  | 0, l => some ([], l)
  | n + 1, l => do
      let (name, l1) ← readCString l
      let (sz, l2) ← readBytes (if version > 8 then 8 else 4) l1
      let (rest, l3) ← readChrEntries version n l2
      some (name ++ (0 : Byte) :: sz ++ rest, l3)

/-- One resolution array (lines 171-175 and 178-182): a 4-byte count
followed by that many 4-byte values; returns the consumed bytes. -/
def readResArray (l : List Byte) : Option (List Byte × List Byte) := do
  let (cnt, l1) ← readBytes 4 l
  let (vals, l2) ← readBytes (4 * (readInt32LE cnt).toNat) l1
  some (cnt ++ vals, l2)

/-- Pass 1 (lines 80-184) on input streams where every read succeeds: the
magic string, version, footer position, genome ID, the version-gated
normalization-vector-index pair, the attribute count and list, the
chromosome dictionary, and the two resolution arrays, recording the byte
offsets of the patchable fields exactly as the source records
`headerBuf.size()`.  The attribute bytes pushed into `headerBuf` are
recovered as `serializeAttrs origAttrs`, which reproduces them verbatim
because parsed keys and values never contain a NUL. -/
def parseHeader (input : List Byte) : Option ParsedHeader := do
  let (magic, l1) ← readCString input
  let (verBytes, l2) ← readBytes 4 l1
  let version := readInt32LE verBytes
  let footerPosField := magic.length + 1 + 4
  let (fpBytes, l3) ← readBytes 8 l2
  let origFooterPos := readInt64LE fpBytes
  let (genome, l4) ← readCString l3
  let nviPosField := if version > 8 then footerPosField + 8 + genome.length + 1 else 0
  let (nviBytes, l5) ← if version > 8 then readBytes 16 l4 else some ([], l4)
  let origNviPos := if version > 8 then readInt64LE (nviBytes.take 8) else 0
  let origNviLen := if version > 8 then readInt64LE (nviBytes.drop 8) else 0
  let attrCountField := footerPosField + 8 + genome.length + 1 +
    (if version > 8 then 16 else 0)
  let (acBytes, l6) ← readBytes 4 l5
  let origAttrCount := readInt32LE acBytes
  let (origAttrs, l7) ← readAttrEntries origAttrCount.toNat l6
  let attrListEnd := attrCountField + 4 + (serializeAttrs origAttrs).length
  let headerBuf := magic ++ (0 : Byte) :: verBytes ++ fpBytes ++ genome ++
    (0 : Byte) :: nviBytes ++ acBytes ++ serializeAttrs origAttrs
  let (chrCnt, l8) ← readBytes 4 l7
  let (chrEntriesBytes, l9) ← readChrEntries version (readInt32LE chrCnt).toNat l8
  let chrDictBuf := chrCnt ++ chrEntriesBytes
  let (bpBytes, l10) ← readResArray l9
  let (fragBytes, _) ← readResArray l10
  let resolutionBuf := bpBytes ++ fragBytes
  let dataStart := headerBuf.length + chrDictBuf.length + resolutionBuf.length
  some { headerBuf, footerPosField, origFooterPos, version, nviPosField, origNviPos,
         origNviLen, attrCountField, origAttrCount, origAttrs, attrListEnd,
         chrDictBuf, resolutionBuf, dataStart }

/-! ## Streaming rewriter -/

/-- The streaming rewrite (lines 217-255): header bytes up to the count
field, the new count, the new attribute list, the chromosome dictionary and
resolution arrays verbatim, then every input byte from `dataStart` on. -/
def writeOutput (h : ParsedHeader) (newAttrs : List AttrKV) (input : List Byte) : List Byte :=
  h.headerBuf.take h.attrCountField ++ writeInt32LE (newAttrs.length : Int) ++
    serializeAttrs newAttrs ++ h.chrDictBuf ++ h.resolutionBuf ++ input.drop h.dataStart

/-! ## Pass 3: pointer patcher -/

/-- Index of the first NUL at or after position `i` in the given suffix. -/
def findNullAux : List Byte → Nat → Option Nat
  | [], _ => none
  | b :: r, i => if b = 0 then some i else findNullAux r (i + 1)

/-- Position of the first NUL byte at or after `pos`; `none` when the
stream ends first (the `do get while != 0` skip loops of lines 303, 325
and 328 would not terminate normally there). -/
def findNullFrom (bytes : List Byte) (pos : Nat) : Option Nat :=
  findNullAux (bytes.drop pos) pos

/-- The `n` bytes at position `pos`. -/
def bytesAt (l : List Byte) (pos n : Nat) : List Byte := (l.drop pos).take n

/-- Overwrite the bytes at positions `pos ..< pos + repl.length`. -/
def writeBytesAt (l : List Byte) (pos : Nat) (repl : List Byte) : List Byte :=
  l.take pos ++ repl ++ l.drop (pos + repl.length)

/-- The master-index entry loop (lines 300-313): for each entry skip the
null-terminated key, read the 8-byte position, rewrite it as
`origPos + (int64_t)delta`, and skip the trailing 4-byte size field. -/
def patchMasterEntries (delta : Nat) : Nat → Nat → List Byte → Option (List Byte)
  | 0, _, bytes => some bytes
  | n + 1, pos, bytes => do
      let keyEnd ← findNullFrom bytes pos
      let posField := keyEnd + 1
      if posField + 8 ≤ bytes.length then
        let origPos := readInt64LE (bytesAt bytes posField 8)
        let bytes1 := writeBytesAt bytes posField (writeInt64LE (origPos + toSigned 8 delta))
        patchMasterEntries delta n (posField + 8 + 4) bytes1
      else none

/-- The normalization-vector-index entry loop (lines 322-339): skip the
null-terminated type, the 4-byte chromosome index, the null-terminated
unit, and the 4-byte resolution; rewrite the 8-byte position as
`oP + (int64_t)delta`; skip the trailing 8-byte size. -/
def patchNviEntries (delta : Nat) : Nat → Nat → List Byte → Option (List Byte)
  | 0, _, bytes => some bytes
  | n + 1, pos, bytes => do
      let typeEnd ← findNullFrom bytes pos
      let unitEnd ← findNullFrom bytes (typeEnd + 1 + 4)
      let posField := unitEnd + 1 + 4
      if posField + 8 ≤ bytes.length then
        let oP := readInt64LE (bytesAt bytes posField 8)
        let bytes1 := writeBytesAt bytes posField (writeInt64LE (oP + toSigned 8 delta))
        patchNviEntries delta n (posField + 8 + 8) bytes1
      else none

/-- Pass-3 stage a (lines 267-279): overwrite the footer-position field
with `origFooterPos + (int64_t)delta`, and for version > 8 rewrite the
normalization-vector-index position as `origNviPos + (int64_t)delta` and
its length with the unchanged `origNviLen`. -/
def patchHeaderFields (h : ParsedHeader) (delta : Nat) (bytes : List Byte) :
    Option (List Byte) :=
  if h.footerPosField + 8 ≤ bytes.length then
    let b1 := writeBytesAt bytes h.footerPosField
      (writeInt64LE (h.origFooterPos + toSigned 8 delta))
    if h.version > 8 then
      if h.nviPosField + 16 ≤ b1.length then
        let b2 := writeBytesAt b1 h.nviPosField
          (writeInt64LE (h.origNviPos + toSigned 8 delta))
        some (writeBytesAt b2 (h.nviPosField + 8) (writeInt64LE h.origNviLen))
      else none
    else some b1
  else none

/-- Pass-3 stage b (lines 281-313): seek to the patched footer position,
skip the version-dependent footer-size field, read the entry count, and
patch every master-index entry in sequence. -/
def patchMasterIndex (h : ParsedHeader) (delta : Nat) (bytes : List Byte) :
    Option (List Byte) :=
  let nfp := h.origFooterPos + toSigned 8 delta
  if nfp < 0 then none
  else
    let pos0 := nfp.toNat
    let fsWidth : Nat := if h.version > 8 then 8 else 4
    if pos0 + fsWidth + 4 ≤ bytes.length then
      let nEntries := readInt32LE (bytesAt bytes (pos0 + fsWidth) 4)
      patchMasterEntries delta nEntries.toNat (pos0 + fsWidth + 4) bytes
    else none

/-- Pass-3 stage c (lines 315-340): only for version > 8, seek to the
patched normalization-vector-index position, read the entry count, and
patch every entry in sequence. -/
def patchNviIndex (h : ParsedHeader) (delta : Nat) (bytes : List Byte) :
    Option (List Byte) :=
  if h.version > 8 then
    let nnp := h.origNviPos + toSigned 8 delta
    if nnp < 0 then none
    else if nnp.toNat + 4 ≤ bytes.length then
      let nNorm := readInt32LE (bytesAt bytes nnp.toNat 4)
      patchNviEntries delta nNorm.toNat (nnp.toNat + 4) bytes
    else none
  else some bytes

/-- Pass 3 (lines 259-342): the three patch stages in order on the written
output file. -/
def patchPointers (h : ParsedHeader) (delta : Nat) (bytes : List Byte) :
    Option (List Byte) := do
  let b1 ← patchHeaderFields h delta bytes
  let b2 ← patchMasterIndex h delta b1
  patchNviIndex h delta b2

/-! ## The whole run -/

/-- Outcome of one invocation of `main` with a well-formed command line. -/
inductive RunResult where
  | readFailure
  | anchorNotFound
  | patchFailure (written : List Byte)
  | success (out : List Byte) (delta : Nat)
deriving DecidableEq

/-- Whether the outcome ever opened (created or truncated) the output
path: only the branches that reach line 219 do. -/
def RunResult.opensOutput : RunResult → Bool
  | .readFailure => false
  | .anchorNotFound => false
  | .patchFailure _ => true
  | .success _ _ => true

/-- Modeled process exit status: 0 for the success path (line 346), 1 for
the modeled failure exits (lines 85, 93, 199, 222, 264). -/
def RunResult.exitCode : RunResult → Nat
  | .success _ _ => 0
  | _ => 1

/-- `main` (lines 59-347) for the fixed `statistics`/`graphs` command
line, on streams where every pass-1 read succeeds: load both value files,
parse the header, build the edited attribute list, stream the rewritten
file, then patch pointers. -/
def runProgram (input statContent graphContent : List Byte) : RunResult :=
  let statVal := load_value_file_text statContent
  let graphVal := load_value_file_text graphContent
  match parseHeader input with
  | none => .readFailure
  | some h =>
      match buildNewAttrs h.origAttrs statVal graphVal with
      | none => .anchorNotFound
      | some newAttrs =>
          let delta := deltaSizeT h.origAttrs newAttrs
          let written := writeOutput h newAttrs input
          match patchPointers h delta written with
          | none => .patchFailure written
          | some out => .success out delta

theorem buildNewAttrs_no_anchor (l : List AttrKV) (statVal graphVal : List Byte)
    (h : ∀ a ∈ l, a.key ≠ softwareKey) :
    buildNewAttrs l statVal graphVal = none := by
  unfold buildNewAttrs
  rw [foldl_filterAttrsStep_no_software l [] none h]

/-- C9: when the parsed attribute list has no `software` anchor, the run
stops at the anchor check with a non-zero status, and the output path is
never opened, because the check of lines 197-200 precedes the output-file
open of line 219. -/
theorem c9_anchor_check_precedes_output (input statContent graphContent : List Byte)
    (h : ParsedHeader) (hp : parseHeader input = some h)
    (hsw : ∀ a ∈ h.origAttrs, a.key ≠ softwareKey) :
    runProgram input statContent graphContent = .anchorNotFound ∧
    (runProgram input statContent graphContent).opensOutput = false ∧
    (runProgram input statContent graphContent).exitCode ≠ 0 := by
  have hrun : runProgram input statContent graphContent = .anchorNotFound := by
    unfold runProgram
    simp only [hp]
    rw [buildNewAttrs_no_anchor _ _ _ hsw]
  refine ⟨hrun, ?_, ?_⟩
  · rw [hrun]
    rfl
  · rw [hrun]
    decide

/-- A minimal version-8 input file whose single attribute key is `k`. -/
def c9File : List Byte :=
  [72, 73, 67, 0] ++ writeInt32LE 8 ++ writeInt64LE 60 ++ [103, 0] ++
    writeInt32LE 1 ++ serializeAttrs [⟨[107], [118]⟩] ++
    writeInt32LE 0 ++ writeInt32LE 0 ++ writeInt32LE 0

/-- The header pass 1 extracts from `c9File`. -/
def c9Header : ParsedHeader :=
  { headerBuf := [72, 73, 67, 0] ++ writeInt32LE 8 ++ writeInt64LE 60 ++ [103, 0] ++
      writeInt32LE 1 ++ serializeAttrs [⟨[107], [118]⟩],
    footerPosField := 8, origFooterPos := 60, version := 8, nviPosField := 0,
    origNviPos := 0, origNviLen := 0, attrCountField := 18, origAttrCount := 1,
    origAttrs := [⟨[107], [118]⟩], attrListEnd := 26,
    chrDictBuf := writeInt32LE 0, resolutionBuf := writeInt32LE 0 ++ writeInt32LE 0,
    dataStart := 38 }

/-- C9 witness: a concrete anchorless file is rejected before any output
byte exists. -/
theorem c9_anchor_check_precedes_output_witness :
    parseHeader c9File = some c9Header ∧
    (∀ a ∈ c9Header.origAttrs, a.key ≠ softwareKey) ∧
    (runProgram c9File [] [] = .anchorNotFound ∧
      (runProgram c9File [] []).opensOutput = false ∧
      (runProgram c9File [] []).exitCode ≠ 0) :=
  ⟨by decide, by decide,
    c9_anchor_check_precedes_output c9File [] [] c9Header (by decide) (by decide)⟩

/-! ## Well-formed input layouts

Constructors that assemble an input file from its logical fields, used to
state theorems over every well-formed input. -/

/-- A master-index entry: key string, absolute position, block size. -/
structure MasterEntry where
  key : List Byte
  position : Int
  size : Int
deriving DecidableEq

/-- A normalization-vector-index entry. -/
structure NviEntry where
  typ : List Byte
  chrIdx : Int
  unit : List Byte
  resolution : Int
  position : Int
  sizeInBytes : Int
deriving DecidableEq

/-- Header bytes: magic, version, footer position, genome ID, the
version-gated NVI position/length pair, attribute count, attribute list. -/
def mkHeader (magic : List Byte) (version footerPos : Int) (genome : List Byte)
    (nviPos nviLen : Int) (attrs : List AttrKV) : List Byte :=
  magic ++ (0 : Byte) :: (writeInt32LE version ++ writeInt64LE footerPos ++ genome ++
    (0 : Byte) :: ((if version > 8 then writeInt64LE nviPos ++ writeInt64LE nviLen else []) ++
      writeInt32LE (attrs.length : Int) ++ serializeAttrs attrs))

/-- One chromosome-dictionary entry: name plus version-dependent size. -/
def mkChrEntry (version : Int) (e : List Byte × Int) : List Byte :=
  e.1 ++ (0 : Byte) :: (if version > 8 then writeInt64LE e.2 else writeInt32LE e.2)

/-- The chromosome dictionary: count plus entries. -/
def mkChrDict (version : Int) (chrs : List (List Byte × Int)) : List Byte :=
  writeInt32LE (chrs.length : Int) ++ (chrs.map (mkChrEntry version)).flatten

/-- One resolution array: count plus 4-byte values. -/
def mkResArray (vals : List Int) : List Byte :=
  writeInt32LE (vals.length : Int) ++ (vals.map writeInt32LE).flatten

/-- One serialized master-index entry. -/
def mkMasterEntry (e : MasterEntry) : List Byte :=
  e.key ++ (0 : Byte) :: (writeInt64LE e.position ++ writeInt32LE e.size)

/-- The master index: version-dependent footer-size field, entry count,
then the entries. -/
def mkMasterIndex (version footerSize : Int) (entries : List MasterEntry) : List Byte :=
  (if version > 8 then writeInt64LE footerSize else writeInt32LE footerSize) ++
    writeInt32LE (entries.length : Int) ++ (entries.map mkMasterEntry).flatten

/-- One serialized normalization-vector-index entry. -/
def mkNviEntry (e : NviEntry) : List Byte :=
  e.typ ++ (0 : Byte) :: (writeInt32LE e.chrIdx ++ e.unit ++
    (0 : Byte) :: (writeInt32LE e.resolution ++ writeInt64LE e.position ++
      writeInt64LE e.sizeInBytes))

/-- The normalization-vector index: entry count then entries. -/
def mkNviIndex (entries : List NviEntry) : List Byte :=
  writeInt32LE (entries.length : Int) ++ (entries.map mkNviEntry).flatten

/-- Entry with its position moved by `d`, as pass 3 rewrites it. -/
def bumpMasterEntry (d : Int) (e : MasterEntry) : MasterEntry :=
  { e with position := e.position + d }

/-- NVI entry with its position moved by `d`, as pass 3 rewrites it. -/
def bumpNviEntry (d : Int) (e : NviEntry) : NviEntry :=
  { e with position := e.position + d }

/-! ## Parsing a well-formed layout -/

theorem readCString_append (s rest : List Byte) (hs : (0 : Byte) ∉ s) :
    readCString (s ++ (0 : Byte) :: rest) = some (s, rest) := by
  induction s with
  | nil => simp [readCString]
  | cons b s ih =>
      have hb : b ≠ 0 := fun hb => hs (by simp [hb])
      have hs' : (0 : Byte) ∉ s := fun hx => hs (by simp [hx])
      simp only [List.cons_append, readCString, if_neg hb, List.append_eq, ih hs']

theorem readBytes_append (n : Nat) (l rest : List Byte) (h : l.length = n) :
    readBytes n (l ++ rest) = some (l, rest) := by
  subst h
  simp [readBytes, List.take_left, List.drop_left]

theorem length_serializeAttr (a : AttrKV) : (serializeAttr a).length = attrEncodedSize a := by
  simp [serializeAttr, attrEncodedSize]
  omega

theorem length_serializeAttrs (l : List AttrKV) :
    (serializeAttrs l).length = attrBytesLoop l := by
  rw [attrBytesLoop_eq_sum]
  induction l with
  | nil => simp [serializeAttrs]
  | cons a l ih =>
      simp only [serializeAttrs, List.map_cons, List.flatten_cons, List.length_append,
        List.map_cons, List.sum_cons, length_serializeAttr]
      simp only [serializeAttrs] at ih
      omega

theorem readAttrEntries_append (attrs : List AttrKV) (rest : List Byte)
    (h : ∀ a ∈ attrs, (0 : Byte) ∉ a.key ∧ (0 : Byte) ∉ a.value) :
    readAttrEntries attrs.length (serializeAttrs attrs ++ rest) = some (attrs, rest) := by
  induction attrs with
  | nil => simp [readAttrEntries, serializeAttrs]
  | cons a attrs ih =>
      obtain ⟨hk, hv⟩ := h a (by simp)
      have hshape : serializeAttrs (a :: attrs) ++ rest =
          a.key ++ (0 : Byte) :: (a.value ++ (0 : Byte) :: (serializeAttrs attrs ++ rest)) := by
        simp [serializeAttrs, serializeAttr]
      simp only [List.length_cons, readAttrEntries, hshape,
        readCString_append a.key _ hk, Option.bind_eq_bind, Option.some_bind,
        readCString_append a.value _ hv, ih (fun x hx => h x (by simp [hx]))]

theorem length_mkChrEntrySize (version : Int) (v : Int) :
    (if version > 8 then writeInt64LE v else writeInt32LE v).length =
      (if version > 8 then 8 else 4) := by
  split <;> simp [length_writeInt64LE, length_writeInt32LE]

theorem readChrEntries_append (version : Int) (chrs : List (List Byte × Int))
    (rest : List Byte) (h : ∀ c ∈ chrs, (0 : Byte) ∉ c.1) :
    readChrEntries version chrs.length ((chrs.map (mkChrEntry version)).flatten ++ rest) =
      some ((chrs.map (mkChrEntry version)).flatten, rest) := by
  induction chrs with
  | nil => simp [readChrEntries]
  | cons c chrs ih =>
      have hc : (0 : Byte) ∉ c.1 := h c (by simp)
      have hshape : ((c :: chrs).map (mkChrEntry version)).flatten ++ rest =
          c.1 ++ (0 : Byte) :: ((if version > 8 then writeInt64LE c.2 else writeInt32LE c.2) ++
            ((chrs.map (mkChrEntry version)).flatten ++ rest)) := by
        simp [mkChrEntry]
      simp only [List.length_cons, readChrEntries, hshape,
        readCString_append c.1 _ hc, Option.bind_eq_bind, Option.some_bind,
        readBytes_append _ _ _ (length_mkChrEntrySize version c.2),
        ih (fun x hx => h x (by simp [hx])), mkChrEntry]
      simp [mkChrEntry]

theorem length_flatten_writeInt32LE (vals : List Int) :
    ((vals.map writeInt32LE).flatten).length = 4 * vals.length := by
  induction vals with
  | nil => simp
  | cons v vals ih =>
      simp only [List.map_cons, List.flatten_cons, List.length_append, length_writeInt32LE,
        ih, List.length_cons]
      omega

theorem readResArray_append (vals : List Int) (rest : List Byte)
    (hlen : vals.length < 2 ^ 31) :
    readResArray (mkResArray vals ++ rest) = some (mkResArray vals, rest) := by
  have hflat : ((vals.map writeInt32LE).flatten).length = 4 * vals.length :=
    length_flatten_writeInt32LE vals
  have hcnt : readInt32LE (writeInt32LE (vals.length : Int)) = (vals.length : Int) := by
    apply readInt32LE_writeInt32LE
    · have : (0 : Int) ≤ (vals.length : Int) := Int.natCast_nonneg _
      omega
    · exact_mod_cast hlen
  have hshape : mkResArray vals ++ rest =
      writeInt32LE (vals.length : Int) ++ ((vals.map writeInt32LE).flatten ++ rest) := by
    simp [mkResArray]
  rw [readResArray, hshape, readBytes_append 4 _ _ (length_writeInt32LE _)]
  simp only [Option.bind_eq_bind, Option.some_bind, hcnt, Int.toNat_natCast]
  rw [readBytes_append _ _ _ (by rw [hflat])]
  simp [mkResArray]

/-- The header record pass 1 produces for a well-formed layout. -/
def mkParsedHeader (magic : List Byte) (version footerPos : Int) (genome : List Byte)
    (nviPos nviLen : Int) (attrs : List AttrKV)
    (chrs : List (List Byte × Int)) (bp frag : List Int) : ParsedHeader :=
  { headerBuf := mkHeader magic version footerPos genome nviPos nviLen attrs,
    footerPosField := magic.length + 1 + 4,
    origFooterPos := footerPos,
    version := version,
    nviPosField := if version > 8 then magic.length + 1 + 4 + 8 + genome.length + 1 else 0,
    origNviPos := if version > 8 then nviPos else 0,
    origNviLen := if version > 8 then nviLen else 0,
    attrCountField := magic.length + 1 + 4 + 8 + genome.length + 1 +
      (if version > 8 then 16 else 0),
    origAttrCount := (attrs.length : Int),
    origAttrs := attrs,
    attrListEnd := magic.length + 1 + 4 + 8 + genome.length + 1 +
      (if version > 8 then 16 else 0) + 4 + (serializeAttrs attrs).length,
    chrDictBuf := mkChrDict version chrs,
    resolutionBuf := mkResArray bp ++ mkResArray frag,
    dataStart := (mkHeader magic version footerPos genome nviPos nviLen attrs).length +
      (mkChrDict version chrs).length + (mkResArray bp ++ mkResArray frag).length }

set_option maxHeartbeats 1600000 in
/-- Pass 1 on a well-formed input: every recorded field is the logical one
of the layout. -/
theorem parseHeader_mk (magic : List Byte) (version footerPos : Int) (genome : List Byte)
    (nviPos nviLen : Int) (attrs : List AttrKV) (chrs : List (List Byte × Int))
    (bp frag : List Int) (payload : List Byte)
    (hm : (0 : Byte) ∉ magic) (hg : (0 : Byte) ∉ genome)
    (hattrs : ∀ a ∈ attrs, (0 : Byte) ∉ a.key ∧ (0 : Byte) ∉ a.value)
    (hacount : attrs.length < 2 ^ 31)
    (hver0 : -(2 ^ 31) ≤ version) (hver1 : version < 2 ^ 31)
    (hfp0 : -(2 ^ 63) ≤ footerPos) (hfp1 : footerPos < 2 ^ 63)
    (hnp0 : -(2 ^ 63) ≤ nviPos) (hnp1 : nviPos < 2 ^ 63)
    (hnl0 : -(2 ^ 63) ≤ nviLen) (hnl1 : nviLen < 2 ^ 63)
    (hchrs : ∀ c ∈ chrs, (0 : Byte) ∉ c.1) (hccount : chrs.length < 2 ^ 31)
    (hbp : bp.length < 2 ^ 31) (hfrag : frag.length < 2 ^ 31) :
    parseHeader (mkHeader magic version footerPos genome nviPos nviLen attrs ++
        mkChrDict version chrs ++ mkResArray bp ++ mkResArray frag ++ payload) =
      some (mkParsedHeader magic version footerPos genome nviPos nviLen attrs chrs bp frag) := by
  have hverRT := readInt32LE_writeInt32LE version hver0 hver1
  have hfpRT := readInt64LE_writeInt64LE footerPos hfp0 hfp1
  have hnpRT := readInt64LE_writeInt64LE nviPos hnp0 hnp1
  have hnlRT := readInt64LE_writeInt64LE nviLen hnl0 hnl1
  have hacRT : readInt32LE (writeInt32LE (attrs.length : Int)) = (attrs.length : Int) := by
    apply readInt32LE_writeInt32LE
    · have := Int.natCast_nonneg attrs.length
      omega
    · exact_mod_cast hacount
  have hccRT : readInt32LE (writeInt32LE (chrs.length : Int)) = (chrs.length : Int) := by
    apply readInt32LE_writeInt32LE
    · have := Int.natCast_nonneg chrs.length
      omega
    · exact_mod_cast hccount
  have hrb4 : ∀ (v : Int) (r : List Byte),
      readBytes 4 (writeInt32LE v ++ r) = some (writeInt32LE v, r) :=
    fun v r => readBytes_append 4 _ r (length_writeInt32LE v)
  have hrb8 : ∀ (v : Int) (r : List Byte),
      readBytes 8 (writeInt64LE v ++ r) = some (writeInt64LE v, r) :=
    fun v r => readBytes_append 8 _ r (length_writeInt64LE v)
  have hrb16 : ∀ (r : List Byte),
      readBytes 16 ((writeInt64LE nviPos ++ writeInt64LE nviLen) ++ r) =
        some (writeInt64LE nviPos ++ writeInt64LE nviLen, r) :=
    fun r => readBytes_append 16 _ r (by simp [length_writeInt64LE])
  have htake8 : (writeInt64LE nviPos ++ writeInt64LE nviLen).take 8 = writeInt64LE nviPos :=
    List.take_left' (length_writeInt64LE _)
  have hdrop8 : (writeInt64LE nviPos ++ writeInt64LE nviLen).drop 8 = writeInt64LE nviLen :=
    List.drop_left' (length_writeInt64LE _)
  have hattrsRead : ∀ r, readAttrEntries attrs.length (serializeAttrs attrs ++ r) =
      some (attrs, r) := fun r => readAttrEntries_append attrs r hattrs
  have hchrsRead : ∀ r, readChrEntries version chrs.length
      ((chrs.map (mkChrEntry version)).flatten ++ r) =
        some ((chrs.map (mkChrEntry version)).flatten, r) :=
    fun r => readChrEntries_append version chrs r hchrs
  have hbpRead : ∀ r, readResArray (mkResArray bp ++ r) = some (mkResArray bp, r) :=
    fun r => readResArray_append bp r hbp
  have hfragRead : ∀ r, readResArray (mkResArray frag ++ r) = some (mkResArray frag, r) :=
    fun r => readResArray_append frag r hfrag
  by_cases hv : version > 8
  · have hshape : mkHeader magic version footerPos genome nviPos nviLen attrs ++
        mkChrDict version chrs ++ mkResArray bp ++ mkResArray frag ++ payload =
        magic ++ (0 : Byte) :: (writeInt32LE version ++ (writeInt64LE footerPos ++
          (genome ++ (0 : Byte) :: ((writeInt64LE nviPos ++ writeInt64LE nviLen) ++
            (writeInt32LE (attrs.length : Int) ++ (serializeAttrs attrs ++
              (writeInt32LE (chrs.length : Int) ++
                ((chrs.map (mkChrEntry version)).flatten ++
                  (mkResArray bp ++ (mkResArray frag ++ payload)))))))))) := by
      simp [mkHeader, mkChrDict, if_pos hv, List.append_assoc]
    rw [hshape]
    unfold parseHeader
    rw [readCString_append _ _ hm]
    simp only [Option.bind_eq_bind]
    simp only [Option.some_bind]
    simp only [hrb4, Option.some_bind]
    simp only [hverRT]
    simp only [hv, if_true]
    simp only [hrb8, Option.some_bind]
    simp only [hfpRT]
    simp only [readCString_append _ _ hg, Option.some_bind]
    simp only [hrb16, Option.some_bind]
    simp only [htake8, hdrop8, hnpRT, hnlRT]
    simp only [hrb4, Option.some_bind]
    simp only [hacRT, Int.toNat_natCast]
    simp only [hattrsRead, Option.some_bind]
    simp only [hrb4, Option.some_bind]
    simp only [hccRT, Int.toNat_natCast]
    simp only [hchrsRead, Option.some_bind]
    simp only [hbpRead, Option.some_bind]
    simp only [hfragRead, Option.some_bind]
    simp only [Option.some.injEq]
    simp [mkParsedHeader, ParsedHeader.mk.injEq, mkHeader, mkChrDict, if_pos hv,
      List.append_assoc]
  · have hshape : mkHeader magic version footerPos genome nviPos nviLen attrs ++
        mkChrDict version chrs ++ mkResArray bp ++ mkResArray frag ++ payload =
        magic ++ (0 : Byte) :: (writeInt32LE version ++ (writeInt64LE footerPos ++
          (genome ++ (0 : Byte) :: (writeInt32LE (attrs.length : Int) ++
            (serializeAttrs attrs ++ (writeInt32LE (chrs.length : Int) ++
              ((chrs.map (mkChrEntry version)).flatten ++
                (mkResArray bp ++ (mkResArray frag ++ payload))))))))) := by
      simp [mkHeader, mkChrDict, if_neg hv, List.append_assoc]
    rw [hshape]
    unfold parseHeader
    rw [readCString_append _ _ hm]
    simp only [Option.bind_eq_bind]
    simp only [Option.some_bind]
    simp only [hrb4, Option.some_bind]
    simp only [hverRT]
    simp only [if_neg hv]
    simp only [hrb8, Option.some_bind]
    simp only [hfpRT]
    simp only [readCString_append _ _ hg, Option.some_bind]
    simp only [hrb4, Option.some_bind]
    simp only [hacRT, Int.toNat_natCast]
    simp only [hattrsRead, Option.some_bind]
    simp only [hrb4, Option.some_bind]
    simp only [hccRT, Int.toNat_natCast]
    simp only [hchrsRead, Option.some_bind]
    simp only [hbpRead, Option.some_bind]
    simp only [hfragRead, Option.some_bind]
    simp only [Option.some.injEq]
    simp [mkParsedHeader, ParsedHeader.mk.injEq, mkHeader, mkChrDict, if_neg hv,
      List.append_assoc]

/-- The streaming rewrite on a parsed well-formed input replaces exactly
the count field and the attribute list, and keeps everything else. -/
theorem writeOutput_mk (magic : List Byte) (version footerPos : Int) (genome : List Byte)
    (nviPos nviLen : Int) (attrs newAttrs : List AttrKV) (chrs : List (List Byte × Int))
    (bp frag : List Int) (payload : List Byte) :
    writeOutput (mkParsedHeader magic version footerPos genome nviPos nviLen attrs chrs bp frag)
        newAttrs
        (mkHeader magic version footerPos genome nviPos nviLen attrs ++
          mkChrDict version chrs ++ mkResArray bp ++ mkResArray frag ++ payload) =
      mkHeader magic version footerPos genome nviPos nviLen newAttrs ++
        mkChrDict version chrs ++ mkResArray bp ++ mkResArray frag ++ payload := by
  have hprelen : (magic ++ (0 : Byte) :: (writeInt32LE version ++ (writeInt64LE footerPos ++
      (genome ++ (0 : Byte) :: (if version > 8 then writeInt64LE nviPos ++ writeInt64LE nviLen
        else []))))).length =
      magic.length + 1 + 4 + 8 + genome.length + 1 + (if version > 8 then 16 else 0) := by
    split <;> simp [length_writeInt32LE, length_writeInt64LE] <;> omega
  have hsplit : mkHeader magic version footerPos genome nviPos nviLen attrs =
      (magic ++ (0 : Byte) :: (writeInt32LE version ++ (writeInt64LE footerPos ++
        (genome ++ (0 : Byte) :: (if version > 8 then writeInt64LE nviPos ++ writeInt64LE nviLen
          else []))))) ++
      (writeInt32LE (attrs.length : Int) ++ serializeAttrs attrs) := by
    simp [mkHeader, List.append_assoc]
  have htake : (mkHeader magic version footerPos genome nviPos nviLen attrs).take
      (magic.length + 1 + 4 + 8 + genome.length + 1 + (if version > 8 then 16 else 0)) =
      magic ++ (0 : Byte) :: (writeInt32LE version ++ (writeInt64LE footerPos ++
        (genome ++ (0 : Byte) :: (if version > 8 then writeInt64LE nviPos ++ writeInt64LE nviLen
          else [])))) := by
    rw [hsplit]
    exact List.take_left' hprelen
  have hregroup : mkHeader magic version footerPos genome nviPos nviLen attrs ++
      mkChrDict version chrs ++ mkResArray bp ++ mkResArray frag ++ payload =
      (mkHeader magic version footerPos genome nviPos nviLen attrs ++
        (mkChrDict version chrs ++ (mkResArray bp ++ mkResArray frag))) ++ payload := by
    simp [List.append_assoc]
  have hdrop : (mkHeader magic version footerPos genome nviPos nviLen attrs ++
      mkChrDict version chrs ++ mkResArray bp ++ mkResArray frag ++ payload).drop
      ((mkHeader magic version footerPos genome nviPos nviLen attrs).length +
        (mkChrDict version chrs).length + (mkResArray bp ++ mkResArray frag).length) =
      payload := by
    rw [hregroup]
    apply List.drop_left'
    simp only [List.length_append]
    omega
  simp only [writeOutput, mkParsedHeader]
  rw [htake, hdrop]
  simp [mkHeader, List.append_assoc]

/-! ## Byte-surgery lemmas -/

theorem bytesAt_append (pre mid post : List Byte) (p n : Nat)
    (hp : p = pre.length) (hn : n = mid.length) :
    bytesAt (pre ++ (mid ++ post)) p n = mid := by
  subst hp hn
  unfold bytesAt
  rw [List.drop_left, List.take_left]

theorem writeBytesAt_append (pre mid post repl : List Byte) (p : Nat)
    (hp : p = pre.length) (h : repl.length = mid.length) :
    writeBytesAt (pre ++ (mid ++ post)) p repl = pre ++ (repl ++ post) := by
  subst hp
  unfold writeBytesAt
  have h1 : (pre ++ (mid ++ post)).take pre.length = pre := List.take_left ..
  have h2 : (pre ++ (mid ++ post)).drop (pre.length + repl.length) = post := by
    rw [show pre ++ (mid ++ post) = (pre ++ mid) ++ post from (List.append_assoc ..).symm]
    apply List.drop_left'
    simp [h]
  rw [h1, h2, List.append_assoc]

theorem findNullAux_append (key rest : List Byte) (i : Nat) (hk : (0 : Byte) ∉ key) :
    findNullAux (key ++ (0 : Byte) :: rest) i = some (i + key.length) := by
  induction key generalizing i with
  | nil => simp [findNullAux]
  | cons b key ih =>
      have hb : b ≠ 0 := fun h => hk (by simp [h])
      simp only [List.cons_append, findNullAux, if_neg hb, List.append_eq, ih (i + 1)
        (fun h => hk (by simp [h])), List.length_cons, Option.some.injEq]
      omega

theorem findNullFrom_append (pre key rest : List Byte) (p : Nat)
    (hp : p = pre.length) (hk : (0 : Byte) ∉ key) :
    findNullFrom (pre ++ (key ++ (0 : Byte) :: rest)) p = some (p + key.length) := by
  subst hp
  unfold findNullFrom
  rw [List.drop_left]
  exact findNullAux_append key rest pre.length hk

theorem length_mkMasterEntry (e : MasterEntry) :
    (mkMasterEntry e).length = e.key.length + 13 := by
  simp [mkMasterEntry, length_writeInt64LE, length_writeInt32LE]

/-- The pass-3 master-index walk on a region laid out as serialized
entries: each entry position is read, bumped by `(int64_t)delta`, and
written back; everything else is untouched. -/
theorem patchMasterEntries_mk (delta : Nat) (entries : List MasterEntry)
    (pre post : List Byte) (p : Nat) (hp : p = pre.length)
    (hkeys : ∀ e ∈ entries, (0 : Byte) ∉ e.key)
    (hpos : ∀ e ∈ entries, -(2 ^ 63) ≤ e.position ∧ e.position < 2 ^ 63) :
    patchMasterEntries delta entries.length p
        (pre ++ ((entries.map mkMasterEntry).flatten ++ post)) =
      some (pre ++
        ((entries.map fun e => mkMasterEntry (bumpMasterEntry (toSigned 8 delta) e)).flatten
          ++ post)) := by
  induction entries generalizing pre p with
  | nil => simp [patchMasterEntries]
  | cons e es ih =>
      subst hp
      have hk : (0 : Byte) ∉ e.key := hkeys e (by simp)
      have hshape : pre ++ (((e :: es).map mkMasterEntry).flatten ++ post) =
          pre ++ (e.key ++ (0 : Byte) :: (writeInt64LE e.position ++
            (writeInt32LE e.size ++ ((es.map mkMasterEntry).flatten ++ post)))) := by
        simp [mkMasterEntry, List.append_assoc]
      rw [List.length_cons, hshape, patchMasterEntries]
      have hfind : findNullFrom (pre ++ (e.key ++ (0 : Byte) :: (writeInt64LE e.position ++
          (writeInt32LE e.size ++ ((es.map mkMasterEntry).flatten ++ post))))) pre.length =
          some (pre.length + e.key.length) :=
        findNullFrom_append pre e.key _ pre.length rfl hk
      rw [hfind]
      simp only [Option.bind_eq_bind, Option.some_bind]
      have hregroup : pre ++ (e.key ++ (0 : Byte) :: (writeInt64LE e.position ++
          (writeInt32LE e.size ++ ((es.map mkMasterEntry).flatten ++ post)))) =
          (pre ++ e.key ++ [(0 : Byte)]) ++ (writeInt64LE e.position ++
            (writeInt32LE e.size ++ ((es.map mkMasterEntry).flatten ++ post))) := by
        simp [List.append_assoc]
      have hplen : pre.length + e.key.length + 1 = (pre ++ e.key ++ [(0 : Byte)]).length := by
        simp only [List.length_append, List.length_cons, List.length_nil]
      have hbound : pre.length + e.key.length + 1 + 8 ≤
          (pre ++ (e.key ++ (0 : Byte) :: (writeInt64LE e.position ++
            (writeInt32LE e.size ++ ((es.map mkMasterEntry).flatten ++ post))))).length := by
        simp only [List.length_append, List.length_cons, length_writeInt64LE,
          length_writeInt32LE]
        omega
      rw [if_pos hbound]
      have hread : bytesAt (pre ++ (e.key ++ (0 : Byte) :: (writeInt64LE e.position ++
          (writeInt32LE e.size ++ ((es.map mkMasterEntry).flatten ++ post)))))
          (pre.length + e.key.length + 1) 8 = writeInt64LE e.position := by
        rw [hregroup]
        exact bytesAt_append _ _ _ _ _ hplen (length_writeInt64LE _).symm
      rw [hread, readInt64LE_writeInt64LE e.position (hpos e (by simp)).1 (hpos e (by simp)).2]
      have hwrite : writeBytesAt (pre ++ (e.key ++ (0 : Byte) :: (writeInt64LE e.position ++
          (writeInt32LE e.size ++ ((es.map mkMasterEntry).flatten ++ post)))))
          (pre.length + e.key.length + 1)
          (writeInt64LE (e.position + toSigned 8 delta)) =
          (pre ++ e.key ++ [(0 : Byte)]) ++ (writeInt64LE (e.position + toSigned 8 delta) ++
            (writeInt32LE e.size ++ ((es.map mkMasterEntry).flatten ++ post))) := by
        rw [hregroup]
        exact writeBytesAt_append _ _ _ _ _ hplen (by simp [length_writeInt64LE])
      rw [hwrite]
      have hregroup2 : (pre ++ e.key ++ [(0 : Byte)]) ++
          (writeInt64LE (e.position + toSigned 8 delta) ++
            (writeInt32LE e.size ++ ((es.map mkMasterEntry).flatten ++ post))) =
          (pre ++ mkMasterEntry (bumpMasterEntry (toSigned 8 delta) e)) ++
            ((es.map mkMasterEntry).flatten ++ post) := by
        simp [mkMasterEntry, bumpMasterEntry, List.append_assoc]
      have hlen2 : pre.length + e.key.length + 1 + 8 + 4 =
          (pre ++ mkMasterEntry (bumpMasterEntry (toSigned 8 delta) e)).length := by
        simp only [List.length_append, length_mkMasterEntry, bumpMasterEntry]
        omega
      rw [hregroup2, hlen2, ih _ _ rfl (fun x hx => hkeys x (by simp [hx]))
        (fun x hx => hpos x (by simp [hx]))]
      simp [mkMasterEntry, bumpMasterEntry, List.append_assoc]

theorem length_mkNviEntry (e : NviEntry) :
    (mkNviEntry e).length = e.typ.length + e.unit.length + 26 := by
  simp [mkNviEntry, length_writeInt64LE, length_writeInt32LE]
  omega

/-- The pass-3 normalization-vector-index walk on a region laid out as
serialized entries: each entry position is bumped by `(int64_t)delta`;
type, chromosome index, unit, resolution and size stay untouched. -/
theorem patchNviEntries_mk (delta : Nat) (entries : List NviEntry)
    (pre post : List Byte) (p : Nat) (hp : p = pre.length)
    (hstrs : ∀ e ∈ entries, (0 : Byte) ∉ e.typ ∧ (0 : Byte) ∉ e.unit)
    (hpos : ∀ e ∈ entries, -(2 ^ 63) ≤ e.position ∧ e.position < 2 ^ 63) :
    patchNviEntries delta entries.length p
        (pre ++ ((entries.map mkNviEntry).flatten ++ post)) =
      some (pre ++
        ((entries.map fun e => mkNviEntry (bumpNviEntry (toSigned 8 delta) e)).flatten
          ++ post)) := by
  induction entries generalizing pre p with
  | nil => simp [patchNviEntries]
  | cons e es ih =>
      subst hp
      obtain ⟨ht, hu⟩ := hstrs e (by simp)
      have hshape : pre ++ (((e :: es).map mkNviEntry).flatten ++ post) =
          pre ++ (e.typ ++ (0 : Byte) :: (writeInt32LE e.chrIdx ++ (e.unit ++
            (0 : Byte) :: (writeInt32LE e.resolution ++ (writeInt64LE e.position ++
              (writeInt64LE e.sizeInBytes ++ ((es.map mkNviEntry).flatten ++ post))))))) := by
        simp [mkNviEntry, List.append_assoc]
      rw [List.length_cons, hshape, patchNviEntries]
      rw [findNullFrom_append pre e.typ _ pre.length rfl ht]
      simp only [Option.bind_eq_bind, Option.some_bind]
      have hregroup1 : pre ++ (e.typ ++ (0 : Byte) :: (writeInt32LE e.chrIdx ++ (e.unit ++
          (0 : Byte) :: (writeInt32LE e.resolution ++ (writeInt64LE e.position ++
            (writeInt64LE e.sizeInBytes ++ ((es.map mkNviEntry).flatten ++ post))))))) =
          (pre ++ e.typ ++ [(0 : Byte)] ++ writeInt32LE e.chrIdx) ++ (e.unit ++
            (0 : Byte) :: (writeInt32LE e.resolution ++ (writeInt64LE e.position ++
              (writeInt64LE e.sizeInBytes ++ ((es.map mkNviEntry).flatten ++ post))))) := by
        simp [List.append_assoc]
      have hlen1 : pre.length + e.typ.length + 1 + 4 =
          (pre ++ e.typ ++ [(0 : Byte)] ++ writeInt32LE e.chrIdx).length := by
        simp only [List.length_append, List.length_cons, List.length_nil, length_writeInt32LE]
      have hfind2 : findNullFrom (pre ++ (e.typ ++ (0 : Byte) :: (writeInt32LE e.chrIdx ++
          (e.unit ++ (0 : Byte) :: (writeInt32LE e.resolution ++ (writeInt64LE e.position ++
            (writeInt64LE e.sizeInBytes ++ ((es.map mkNviEntry).flatten ++ post))))))))
          (pre.length + e.typ.length + 1 + 4) =
          some (pre.length + e.typ.length + 1 + 4 + e.unit.length) := by
        rw [hregroup1]
        exact findNullFrom_append _ e.unit _ _ hlen1 hu
      rw [hfind2]
      simp only [Option.bind_eq_bind, Option.some_bind]
      have hregroup2 : pre ++ (e.typ ++ (0 : Byte) :: (writeInt32LE e.chrIdx ++ (e.unit ++
          (0 : Byte) :: (writeInt32LE e.resolution ++ (writeInt64LE e.position ++
            (writeInt64LE e.sizeInBytes ++ ((es.map mkNviEntry).flatten ++ post))))))) =
          (pre ++ e.typ ++ [(0 : Byte)] ++ writeInt32LE e.chrIdx ++ e.unit ++ [(0 : Byte)] ++
            writeInt32LE e.resolution) ++ (writeInt64LE e.position ++
              (writeInt64LE e.sizeInBytes ++ ((es.map mkNviEntry).flatten ++ post))) := by
        simp [List.append_assoc]
      have hlen2 : pre.length + e.typ.length + 1 + 4 + e.unit.length + 1 + 4 =
          (pre ++ e.typ ++ [(0 : Byte)] ++ writeInt32LE e.chrIdx ++ e.unit ++ [(0 : Byte)] ++
            writeInt32LE e.resolution).length := by
        simp only [List.length_append, List.length_cons, List.length_nil, length_writeInt32LE]
      have hbound : pre.length + e.typ.length + 1 + 4 + e.unit.length + 1 + 4 + 8 ≤
          (pre ++ (e.typ ++ (0 : Byte) :: (writeInt32LE e.chrIdx ++ (e.unit ++
            (0 : Byte) :: (writeInt32LE e.resolution ++ (writeInt64LE e.position ++
              (writeInt64LE e.sizeInBytes ++
                ((es.map mkNviEntry).flatten ++ post)))))))).length := by
        simp only [List.length_append, List.length_cons, length_writeInt64LE,
          length_writeInt32LE]
        omega
      rw [if_pos hbound]
      have hread : bytesAt (pre ++ (e.typ ++ (0 : Byte) :: (writeInt32LE e.chrIdx ++
          (e.unit ++ (0 : Byte) :: (writeInt32LE e.resolution ++ (writeInt64LE e.position ++
            (writeInt64LE e.sizeInBytes ++ ((es.map mkNviEntry).flatten ++ post))))))))
          (pre.length + e.typ.length + 1 + 4 + e.unit.length + 1 + 4) 8 =
          writeInt64LE e.position := by
        rw [hregroup2]
        exact bytesAt_append _ _ _ _ _ hlen2 (length_writeInt64LE _).symm
      rw [hread, readInt64LE_writeInt64LE e.position (hpos e (by simp)).1 (hpos e (by simp)).2]
      have hwrite : writeBytesAt (pre ++ (e.typ ++ (0 : Byte) :: (writeInt32LE e.chrIdx ++
          (e.unit ++ (0 : Byte) :: (writeInt32LE e.resolution ++ (writeInt64LE e.position ++
            (writeInt64LE e.sizeInBytes ++ ((es.map mkNviEntry).flatten ++ post))))))))
          (pre.length + e.typ.length + 1 + 4 + e.unit.length + 1 + 4)
          (writeInt64LE (e.position + toSigned 8 delta)) =
          (pre ++ e.typ ++ [(0 : Byte)] ++ writeInt32LE e.chrIdx ++ e.unit ++ [(0 : Byte)] ++
            writeInt32LE e.resolution) ++ (writeInt64LE (e.position + toSigned 8 delta) ++
              (writeInt64LE e.sizeInBytes ++ ((es.map mkNviEntry).flatten ++ post))) := by
        rw [hregroup2]
        exact writeBytesAt_append _ _ _ _ _ hlen2 (by simp [length_writeInt64LE])
      rw [hwrite]
      have hregroup3 : (pre ++ e.typ ++ [(0 : Byte)] ++ writeInt32LE e.chrIdx ++ e.unit ++
          [(0 : Byte)] ++ writeInt32LE e.resolution) ++
          (writeInt64LE (e.position + toSigned 8 delta) ++
            (writeInt64LE e.sizeInBytes ++ ((es.map mkNviEntry).flatten ++ post))) =
          (pre ++ mkNviEntry (bumpNviEntry (toSigned 8 delta) e)) ++
            ((es.map mkNviEntry).flatten ++ post) := by
        simp [mkNviEntry, bumpNviEntry, List.append_assoc]
      have hlen3 : pre.length + e.typ.length + 1 + 4 + e.unit.length + 1 + 4 + 8 + 8 =
          (pre ++ mkNviEntry (bumpNviEntry (toSigned 8 delta) e)).length := by
        simp only [List.length_append, length_mkNviEntry, bumpNviEntry]
        omega
      rw [hregroup3, hlen3, ih _ _ rfl (fun x hx => hstrs x (by simp [hx]))
        (fun x hx => hpos x (by simp [hx]))]
      simp [mkNviEntry, bumpNviEntry, List.append_assoc]

theorem length_mkHeader (magic : List Byte) (version footerPos : Int) (genome : List Byte)
    (nviPos nviLen : Int) (attrs : List AttrKV) :
    (mkHeader magic version footerPos genome nviPos nviLen attrs).length =
      magic.length + 1 + 4 + 8 + genome.length + 1 +
        (if version > 8 then 16 else 0) + 4 + (serializeAttrs attrs).length := by
  unfold mkHeader
  split <;>
    simp only [List.length_append, List.length_cons, List.length_nil, length_writeInt32LE,
      length_writeInt64LE] <;>
    omega

/-- Pass-3 stage a on the written output: the footer position moves by
`(int64_t)delta`, for version > 8 the NVI position moves too and its
length is rewritten with its original value, so the header is the one of
the patched layout. -/
theorem patchHeaderFields_mk (magic : List Byte) (version footerPos : Int)
    (genome : List Byte) (nviPos nviLen : Int) (attrs newAttrs : List AttrKV)
    (chrs : List (List Byte × Int)) (bp frag : List Int) (tail : List Byte) (delta : Nat) :
    patchHeaderFields
        (mkParsedHeader magic version footerPos genome nviPos nviLen attrs chrs bp frag)
        delta (mkHeader magic version footerPos genome nviPos nviLen newAttrs ++ tail) =
      some (mkHeader magic version (footerPos + toSigned 8 delta) genome
        (nviPos + toSigned 8 delta) nviLen newAttrs ++ tail) := by
  by_cases hv : version > 8
  · have hshape : mkHeader magic version footerPos genome nviPos nviLen newAttrs ++ tail =
        (magic ++ (0 : Byte) :: writeInt32LE version) ++ (writeInt64LE footerPos ++
          (genome ++ (0 : Byte) :: (writeInt64LE nviPos ++ (writeInt64LE nviLen ++
            (writeInt32LE (newAttrs.length : Int) ++ (serializeAttrs newAttrs ++ tail)))))) := by
      simp [mkHeader, if_pos hv, List.append_assoc]
    have hlenP1 : magic.length + 1 + 4 = (magic ++ (0 : Byte) :: writeInt32LE version).length := by
      simp only [List.length_append, List.length_cons, length_writeInt32LE]
    have hwrite1 : writeBytesAt
        (mkHeader magic version footerPos genome nviPos nviLen newAttrs ++ tail)
        (magic.length + 1 + 4) (writeInt64LE (footerPos + toSigned 8 delta)) =
        (magic ++ (0 : Byte) :: writeInt32LE version) ++
          (writeInt64LE (footerPos + toSigned 8 delta) ++
          (genome ++ (0 : Byte) :: (writeInt64LE nviPos ++ (writeInt64LE nviLen ++
            (writeInt32LE (newAttrs.length : Int) ++ (serializeAttrs newAttrs ++ tail)))))) := by
      rw [hshape]
      exact writeBytesAt_append _ _ _ _ _ hlenP1 (by simp [length_writeInt64LE])
    have hb1 : magic.length + 1 + 4 + 8 ≤
        (mkHeader magic version footerPos genome nviPos nviLen newAttrs ++ tail).length := by
      simp only [List.length_append, length_mkHeader]
      omega
    have hshape2 : (magic ++ (0 : Byte) :: writeInt32LE version) ++
        (writeInt64LE (footerPos + toSigned 8 delta) ++
        (genome ++ (0 : Byte) :: (writeInt64LE nviPos ++ (writeInt64LE nviLen ++
          (writeInt32LE (newAttrs.length : Int) ++ (serializeAttrs newAttrs ++ tail)))))) =
        (magic ++ (0 : Byte) :: writeInt32LE version ++
          writeInt64LE (footerPos + toSigned 8 delta) ++ genome ++ [(0 : Byte)]) ++
          (writeInt64LE nviPos ++ (writeInt64LE nviLen ++
            (writeInt32LE (newAttrs.length : Int) ++ (serializeAttrs newAttrs ++ tail)))) := by
      simp [List.append_assoc]
    have hlenP2 : magic.length + 1 + 4 + 8 + genome.length + 1 =
        (magic ++ (0 : Byte) :: writeInt32LE version ++
          writeInt64LE (footerPos + toSigned 8 delta) ++ genome ++ [(0 : Byte)]).length := by
      simp only [List.length_append, List.length_cons, List.length_nil, length_writeInt32LE,
        length_writeInt64LE]
    have hwrite2 : writeBytesAt ((magic ++ (0 : Byte) :: writeInt32LE version) ++
        (writeInt64LE (footerPos + toSigned 8 delta) ++
        (genome ++ (0 : Byte) :: (writeInt64LE nviPos ++ (writeInt64LE nviLen ++
          (writeInt32LE (newAttrs.length : Int) ++ (serializeAttrs newAttrs ++ tail)))))))
        (magic.length + 1 + 4 + 8 + genome.length + 1)
        (writeInt64LE (nviPos + toSigned 8 delta)) =
        (magic ++ (0 : Byte) :: writeInt32LE version ++
          writeInt64LE (footerPos + toSigned 8 delta) ++ genome ++ [(0 : Byte)]) ++
          (writeInt64LE (nviPos + toSigned 8 delta) ++ (writeInt64LE nviLen ++
            (writeInt32LE (newAttrs.length : Int) ++ (serializeAttrs newAttrs ++ tail)))) := by
      rw [hshape2]
      exact writeBytesAt_append _ _ _ _ _ hlenP2 (by simp [length_writeInt64LE])
    have hshape3 : (magic ++ (0 : Byte) :: writeInt32LE version ++
        writeInt64LE (footerPos + toSigned 8 delta) ++ genome ++ [(0 : Byte)]) ++
        (writeInt64LE (nviPos + toSigned 8 delta) ++ (writeInt64LE nviLen ++
          (writeInt32LE (newAttrs.length : Int) ++ (serializeAttrs newAttrs ++ tail)))) =
        (magic ++ (0 : Byte) :: writeInt32LE version ++
          writeInt64LE (footerPos + toSigned 8 delta) ++ genome ++ [(0 : Byte)] ++
          writeInt64LE (nviPos + toSigned 8 delta)) ++
          (writeInt64LE nviLen ++
            (writeInt32LE (newAttrs.length : Int) ++ (serializeAttrs newAttrs ++ tail))) := by
      simp [List.append_assoc]
    have hlenP3 : magic.length + 1 + 4 + 8 + genome.length + 1 + 8 =
        (magic ++ (0 : Byte) :: writeInt32LE version ++
          writeInt64LE (footerPos + toSigned 8 delta) ++ genome ++ [(0 : Byte)] ++
          writeInt64LE (nviPos + toSigned 8 delta)).length := by
      simp only [List.length_append, List.length_cons, List.length_nil, length_writeInt32LE,
        length_writeInt64LE]
    have hwrite3 : writeBytesAt ((magic ++ (0 : Byte) :: writeInt32LE version ++
        writeInt64LE (footerPos + toSigned 8 delta) ++ genome ++ [(0 : Byte)]) ++
        (writeInt64LE (nviPos + toSigned 8 delta) ++ (writeInt64LE nviLen ++
          (writeInt32LE (newAttrs.length : Int) ++ (serializeAttrs newAttrs ++ tail)))))
        (magic.length + 1 + 4 + 8 + genome.length + 1 + 8) (writeInt64LE nviLen) =
        (magic ++ (0 : Byte) :: writeInt32LE version ++
          writeInt64LE (footerPos + toSigned 8 delta) ++ genome ++ [(0 : Byte)] ++
          writeInt64LE (nviPos + toSigned 8 delta)) ++
          (writeInt64LE nviLen ++
            (writeInt32LE (newAttrs.length : Int) ++ (serializeAttrs newAttrs ++ tail))) := by
      rw [hshape3]
      exact writeBytesAt_append _ _ _ _ _ hlenP3 rfl
    have hb2len : ((magic ++ (0 : Byte) :: writeInt32LE version) ++
        (writeInt64LE (footerPos + toSigned 8 delta) ++
        (genome ++ (0 : Byte) :: (writeInt64LE nviPos ++ (writeInt64LE nviLen ++
          (writeInt32LE (newAttrs.length : Int) ++
            (serializeAttrs newAttrs ++ tail))))))).length =
        magic.length + 1 + 4 + 8 + genome.length + 1 + 16 + 4 +
          (serializeAttrs newAttrs).length + tail.length := by
      simp only [List.length_append, List.length_cons, length_writeInt32LE,
        length_writeInt64LE]
      omega
    simp only [patchHeaderFields, mkParsedHeader, if_pos hv]
    rw [if_pos hb1, hwrite1]
    rw [if_pos (by rw [hb2len]; omega)]
    rw [hwrite2, hwrite3]
    simp [mkHeader, if_pos hv, List.append_assoc]
  · have hshape : mkHeader magic version footerPos genome nviPos nviLen newAttrs ++ tail =
        (magic ++ (0 : Byte) :: writeInt32LE version) ++ (writeInt64LE footerPos ++
          (genome ++ (0 : Byte) :: (writeInt32LE (newAttrs.length : Int) ++
            (serializeAttrs newAttrs ++ tail)))) := by
      simp [mkHeader, if_neg hv, List.append_assoc]
    have hlenP1 : magic.length + 1 + 4 = (magic ++ (0 : Byte) :: writeInt32LE version).length := by
      simp only [List.length_append, List.length_cons, length_writeInt32LE]
    have hwrite1 : writeBytesAt
        (mkHeader magic version footerPos genome nviPos nviLen newAttrs ++ tail)
        (magic.length + 1 + 4) (writeInt64LE (footerPos + toSigned 8 delta)) =
        (magic ++ (0 : Byte) :: writeInt32LE version) ++
          (writeInt64LE (footerPos + toSigned 8 delta) ++
          (genome ++ (0 : Byte) :: (writeInt32LE (newAttrs.length : Int) ++
            (serializeAttrs newAttrs ++ tail)))) := by
      rw [hshape]
      exact writeBytesAt_append _ _ _ _ _ hlenP1 (by simp [length_writeInt64LE])
    have hb1 : magic.length + 1 + 4 + 8 ≤
        (mkHeader magic version footerPos genome nviPos nviLen newAttrs ++ tail).length := by
      simp only [List.length_append, length_mkHeader]
      omega
    simp only [patchHeaderFields, mkParsedHeader, if_neg hv]
    rw [if_pos hb1, hwrite1]
    simp [mkHeader, if_neg hv, List.append_assoc]

theorem length_fsField (version fsize : Int) :
    ((if version > 8 then writeInt64LE fsize else writeInt32LE fsize) : List Byte).length =
      (if version > 8 then 8 else 4) := by
  split <;> simp [length_writeInt64LE, length_writeInt32LE]

/-- Pass-3 stage b on an output whose master index sits exactly at the
patched footer position: the entry count and footer-size field are kept
and every entry position is bumped. -/
theorem patchMasterIndex_mk (magic : List Byte) (version footerPos : Int)
    (genome : List Byte) (nviPos nviLen : Int) (attrs : List AttrKV)
    (chrs : List (List Byte × Int)) (bp frag : List Int) (delta : Nat)
    (outPre post : List Byte) (fsize : Int) (entries : List MasterEntry)
    (hpos0 : footerPos + toSigned 8 delta = (outPre.length : Int))
    (hcount : entries.length < 2 ^ 31)
    (hkeys : ∀ e ∈ entries, (0 : Byte) ∉ e.key)
    (hposs : ∀ e ∈ entries, -(2 ^ 63) ≤ e.position ∧ e.position < 2 ^ 63) :
    patchMasterIndex
        (mkParsedHeader magic version footerPos genome nviPos nviLen attrs chrs bp frag)
        delta (outPre ++ (mkMasterIndex version fsize entries ++ post)) =
      some (outPre ++ (mkMasterIndex version fsize
        (entries.map (bumpMasterEntry (toSigned 8 delta))) ++ post)) := by
  have hcRT : readInt32LE (writeInt32LE (entries.length : Int)) = (entries.length : Int) := by
    apply readInt32LE_writeInt32LE
    · have := Int.natCast_nonneg entries.length
      omega
    · exact_mod_cast hcount
  have hnonneg : ¬ (footerPos + toSigned 8 delta < 0) := by
    rw [hpos0]
    have := Int.natCast_nonneg outPre.length
    omega
  have htn : (footerPos + toSigned 8 delta).toNat = outPre.length := by
    rw [hpos0]
    exact Int.toNat_natCast _
  have hshape : outPre ++ (mkMasterIndex version fsize entries ++ post) =
      outPre ++ ((if version > 8 then writeInt64LE fsize else writeInt32LE fsize) ++
        (writeInt32LE (entries.length : Int) ++
          ((entries.map mkMasterEntry).flatten ++ post))) := by
    simp [mkMasterIndex, List.append_assoc]
  have hlenPre2 : outPre.length + (if version > 8 then 8 else 4) =
      (outPre ++ (if version > 8 then writeInt64LE fsize else writeInt32LE fsize)).length := by
    simp only [List.length_append, length_fsField]
  have hread : bytesAt (outPre ++ ((if version > 8 then writeInt64LE fsize
      else writeInt32LE fsize) ++ (writeInt32LE (entries.length : Int) ++
        ((entries.map mkMasterEntry).flatten ++ post))))
      (outPre.length + (if version > 8 then 8 else 4)) 4 =
      writeInt32LE (entries.length : Int) := by
    rw [show outPre ++ ((if version > 8 then writeInt64LE fsize else writeInt32LE fsize) ++
        (writeInt32LE (entries.length : Int) ++ ((entries.map mkMasterEntry).flatten ++ post))) =
        (outPre ++ (if version > 8 then writeInt64LE fsize else writeInt32LE fsize)) ++
          (writeInt32LE (entries.length : Int) ++
            ((entries.map mkMasterEntry).flatten ++ post)) from by simp [List.append_assoc]]
    exact bytesAt_append _ _ _ _ _ hlenPre2 (length_writeInt32LE _).symm
  have hbound : outPre.length + (if version > 8 then 8 else 4) + 4 ≤
      (outPre ++ ((if version > 8 then writeInt64LE fsize else writeInt32LE fsize) ++
        (writeInt32LE (entries.length : Int) ++
          ((entries.map mkMasterEntry).flatten ++ post)))).length := by
    simp only [List.length_append, length_fsField, length_writeInt32LE]
    omega
  have hlenPre3 : outPre.length + (if version > 8 then 8 else 4) + 4 =
      (outPre ++ (if version > 8 then writeInt64LE fsize else writeInt32LE fsize) ++
        writeInt32LE (entries.length : Int)).length := by
    simp only [List.length_append, length_fsField, length_writeInt32LE]
  have hwalk := patchMasterEntries_mk delta entries
    (outPre ++ (if version > 8 then writeInt64LE fsize else writeInt32LE fsize) ++
      writeInt32LE (entries.length : Int)) post
    (outPre.length + (if version > 8 then 8 else 4) + 4) hlenPre3 hkeys hposs
  simp only [patchMasterIndex, mkParsedHeader, if_neg hnonneg, htn, hshape, hread, hcRT,
    Int.toNat_natCast]
  rw [show outPre ++ ((if version > 8 then writeInt64LE fsize else writeInt32LE fsize) ++
      (writeInt32LE (entries.length : Int) ++ ((entries.map mkMasterEntry).flatten ++ post))) =
      (outPre ++ (if version > 8 then writeInt64LE fsize else writeInt32LE fsize) ++
        writeInt32LE (entries.length : Int)) ++
        ((entries.map mkMasterEntry).flatten ++ post) from by simp [List.append_assoc]]
  rw [if_pos (by simpa [List.append_assoc] using hbound)]
  rw [hwalk]
  simp [mkMasterIndex, List.append_assoc, List.map_map, Function.comp_def]

/-- Pass-3 stage c is the identity for version ≤ 8. -/
theorem patchNviIndex_mk_v8 (magic : List Byte) (version footerPos : Int)
    (genome : List Byte) (nviPos nviLen : Int) (attrs : List AttrKV)
    (chrs : List (List Byte × Int)) (bp frag : List Int) (delta : Nat)
    (bytes : List Byte) (hv : ¬ version > 8) :
    patchNviIndex
        (mkParsedHeader magic version footerPos genome nviPos nviLen attrs chrs bp frag)
        delta bytes = some bytes := by
  simp [patchNviIndex, mkParsedHeader, if_neg hv]

/-- Pass-3 stage c on a version > 8 output whose NVI sits exactly at the
patched NVI position: every entry position is bumped, counts and sizes are
kept. -/
theorem patchNviIndex_mk_v9 (magic : List Byte) (version footerPos : Int)
    (genome : List Byte) (nviPos nviLen : Int) (attrs : List AttrKV)
    (chrs : List (List Byte × Int)) (bp frag : List Int) (delta : Nat)
    (outPre post : List Byte) (nviEntries : List NviEntry) (hv : version > 8)
    (hpos0 : nviPos + toSigned 8 delta = (outPre.length : Int))
    (hcount : nviEntries.length < 2 ^ 31)
    (hstrs : ∀ e ∈ nviEntries, (0 : Byte) ∉ e.typ ∧ (0 : Byte) ∉ e.unit)
    (hposs : ∀ e ∈ nviEntries, -(2 ^ 63) ≤ e.position ∧ e.position < 2 ^ 63) :
    patchNviIndex
        (mkParsedHeader magic version footerPos genome nviPos nviLen attrs chrs bp frag)
        delta (outPre ++ (mkNviIndex nviEntries ++ post)) =
      some (outPre ++ (mkNviIndex
        (nviEntries.map (bumpNviEntry (toSigned 8 delta))) ++ post)) := by
  have hcRT : readInt32LE (writeInt32LE (nviEntries.length : Int)) =
      (nviEntries.length : Int) := by
    apply readInt32LE_writeInt32LE
    · have := Int.natCast_nonneg nviEntries.length
      omega
    · exact_mod_cast hcount
  have hnonneg : ¬ (nviPos + toSigned 8 delta < 0) := by
    rw [hpos0]
    have := Int.natCast_nonneg outPre.length
    omega
  have htn : (nviPos + toSigned 8 delta).toNat = outPre.length := by
    rw [hpos0]
    exact Int.toNat_natCast _
  have hshape : outPre ++ (mkNviIndex nviEntries ++ post) =
      outPre ++ (writeInt32LE (nviEntries.length : Int) ++
        ((nviEntries.map mkNviEntry).flatten ++ post)) := by
    simp [mkNviIndex, List.append_assoc]
  have hread : bytesAt (outPre ++ (writeInt32LE (nviEntries.length : Int) ++
      ((nviEntries.map mkNviEntry).flatten ++ post))) outPre.length 4 =
      writeInt32LE (nviEntries.length : Int) :=
    bytesAt_append _ _ _ _ _ rfl (length_writeInt32LE _).symm
  have hbound : outPre.length + 4 ≤
      (outPre ++ (writeInt32LE (nviEntries.length : Int) ++
        ((nviEntries.map mkNviEntry).flatten ++ post))).length := by
    simp only [List.length_append, length_writeInt32LE]
    omega
  have hlenPre2 : outPre.length + 4 =
      (outPre ++ writeInt32LE (nviEntries.length : Int)).length := by
    simp only [List.length_append, length_writeInt32LE]
  have hwalk := patchNviEntries_mk delta nviEntries
    (outPre ++ writeInt32LE (nviEntries.length : Int)) post
    (outPre.length + 4) hlenPre2 hstrs hposs
  simp only [patchNviIndex, mkParsedHeader, if_pos hv, if_neg hnonneg, htn, hshape, hread,
    hcRT, Int.toNat_natCast]
  rw [if_pos (by simpa [List.append_assoc] using hbound)]
  rw [show outPre ++ (writeInt32LE (nviEntries.length : Int) ++
      ((nviEntries.map mkNviEntry).flatten ++ post)) =
      (outPre ++ writeInt32LE (nviEntries.length : Int)) ++
        ((nviEntries.map mkNviEntry).flatten ++ post) from by simp [List.append_assoc]]
  rw [hwalk]
  simp [mkNviIndex, List.append_assoc, List.map_map, Function.comp_def]

/-- The signed reinterpretation of the stored delta equals the serialized
size difference of the attribute lists. -/
theorem deltaInt64_eq_size_diff (attrs newAttrs : List AttrKV)
    (hsz1 : attrBytesLoop attrs < 2 ^ 63) (hsz2 : attrBytesLoop newAttrs < 2 ^ 63) :
    toSigned 8 (deltaSizeT attrs newAttrs) =
      ((serializeAttrs newAttrs).length : Int) - ((serializeAttrs attrs).length : Int) := by
  have h1 := toSigned_wrap_sub (attrBytesLoop attrs) (attrBytesLoop newAttrs) hsz1 hsz2
  unfold deltaSizeT
  rw [h1, length_serializeAttrs, length_serializeAttrs]

/-- End-to-end run on a well-formed version ≤ 8 layout: the output is the
same layout with the new attribute list, the footer position and every
master-index entry position moved by the one signed delta, and everything
else unchanged. -/
theorem runProgram_mk_v8 (magic genome : List Byte) (version footerPos fsize : Int)
    (nviPos nviLen : Int) (attrs newAttrs : List AttrKV) (chrs : List (List Byte × Int))
    (bp frag : List Int) (P1 rest : List Byte) (entries : List MasterEntry)
    (statContent graphContent : List Byte)
    (hv : ¬ version > 8)
    (hm : (0 : Byte) ∉ magic) (hg : (0 : Byte) ∉ genome)
    (hattrs : ∀ a ∈ attrs, (0 : Byte) ∉ a.key ∧ (0 : Byte) ∉ a.value)
    (hacount : attrs.length < 2 ^ 31)
    (hver0 : -(2 ^ 31) ≤ version) (hver1 : version < 2 ^ 31)
    (hfp0 : -(2 ^ 63) ≤ footerPos) (hfp1 : footerPos < 2 ^ 63)
    (hnp0 : -(2 ^ 63) ≤ nviPos) (hnp1 : nviPos < 2 ^ 63)
    (hnl0 : -(2 ^ 63) ≤ nviLen) (hnl1 : nviLen < 2 ^ 63)
    (hchrs : ∀ c ∈ chrs, (0 : Byte) ∉ c.1) (hccount : chrs.length < 2 ^ 31)
    (hbp : bp.length < 2 ^ 31) (hfrag : frag.length < 2 ^ 31)
    (hsz1 : attrBytesLoop attrs < 2 ^ 63) (hsz2 : attrBytesLoop newAttrs < 2 ^ 63)
    (hbuild : buildNewAttrs attrs (load_value_file_text statContent)
      (load_value_file_text graphContent) = some newAttrs)
    (hecount : entries.length < 2 ^ 31)
    (hkeys : ∀ e ∈ entries, (0 : Byte) ∉ e.key)
    (hposs : ∀ e ∈ entries, -(2 ^ 63) ≤ e.position ∧ e.position < 2 ^ 63)
    (hfpeq : footerPos = ((mkHeader magic version footerPos genome nviPos nviLen attrs).length +
      (mkChrDict version chrs).length + (mkResArray bp).length + (mkResArray frag).length +
      P1.length : Nat)) :
    runProgram (mkHeader magic version footerPos genome nviPos nviLen attrs ++
        mkChrDict version chrs ++ mkResArray bp ++ mkResArray frag ++
        (P1 ++ (mkMasterIndex version fsize entries ++ rest))) statContent graphContent =
      .success
        (mkHeader magic version (footerPos + toSigned 8 (deltaSizeT attrs newAttrs)) genome
          (nviPos + toSigned 8 (deltaSizeT attrs newAttrs)) nviLen newAttrs ++
          mkChrDict version chrs ++ mkResArray bp ++ mkResArray frag ++
          (P1 ++ (mkMasterIndex version fsize
            (entries.map (bumpMasterEntry (toSigned 8 (deltaSizeT attrs newAttrs)))) ++ rest)))
        (deltaSizeT attrs newAttrs) := by
  have hδeq := deltaInt64_eq_size_diff attrs newAttrs hsz1 hsz2
  have hparse := parseHeader_mk magic version footerPos genome nviPos nviLen attrs chrs bp frag
    (P1 ++ (mkMasterIndex version fsize entries ++ rest)) hm hg hattrs hacount hver0 hver1
    hfp0 hfp1 hnp0 hnp1 hnl0 hnl1 hchrs hccount hbp hfrag
  have horig : (mkParsedHeader magic version footerPos genome nviPos nviLen attrs
      chrs bp frag).origAttrs = attrs := rfl
  have hwrite := writeOutput_mk magic version footerPos genome nviPos nviLen attrs newAttrs
    chrs bp frag (P1 ++ (mkMasterIndex version fsize entries ++ rest))
  have hreg1 : mkHeader magic version footerPos genome nviPos nviLen newAttrs ++
      mkChrDict version chrs ++ mkResArray bp ++ mkResArray frag ++
      (P1 ++ (mkMasterIndex version fsize entries ++ rest)) =
      mkHeader magic version footerPos genome nviPos nviLen newAttrs ++
        (mkChrDict version chrs ++ (mkResArray bp ++ (mkResArray frag ++
          (P1 ++ (mkMasterIndex version fsize entries ++ rest))))) := by
    simp [List.append_assoc]
  have hstage1 := patchHeaderFields_mk magic version footerPos genome nviPos nviLen attrs
    newAttrs chrs bp frag
    (mkChrDict version chrs ++ (mkResArray bp ++ (mkResArray frag ++
      (P1 ++ (mkMasterIndex version fsize entries ++ rest)))))
    (deltaSizeT attrs newAttrs)
  have hreg2 : mkHeader magic version (footerPos + toSigned 8 (deltaSizeT attrs newAttrs))
      genome (nviPos + toSigned 8 (deltaSizeT attrs newAttrs)) nviLen newAttrs ++
      (mkChrDict version chrs ++ (mkResArray bp ++ (mkResArray frag ++
        (P1 ++ (mkMasterIndex version fsize entries ++ rest))))) =
      (mkHeader magic version (footerPos + toSigned 8 (deltaSizeT attrs newAttrs)) genome
        (nviPos + toSigned 8 (deltaSizeT attrs newAttrs)) nviLen newAttrs ++
        mkChrDict version chrs ++ mkResArray bp ++ mkResArray frag ++ P1) ++
        (mkMasterIndex version fsize entries ++ rest) := by
    simp [List.append_assoc]
  have hpos0 : footerPos + toSigned 8 (deltaSizeT attrs newAttrs) =
      (((mkHeader magic version (footerPos + toSigned 8 (deltaSizeT attrs newAttrs)) genome
        (nviPos + toSigned 8 (deltaSizeT attrs newAttrs)) nviLen newAttrs ++
        mkChrDict version chrs ++ mkResArray bp ++ mkResArray frag ++ P1).length : Nat) : Int) := by
    rw [hδeq]
    rw [hfpeq]
    simp only [List.length_append, length_mkHeader]
    push_cast
    ring
  have hstage2 := patchMasterIndex_mk magic version footerPos genome nviPos nviLen attrs
    chrs bp frag (deltaSizeT attrs newAttrs)
    (mkHeader magic version (footerPos + toSigned 8 (deltaSizeT attrs newAttrs)) genome
      (nviPos + toSigned 8 (deltaSizeT attrs newAttrs)) nviLen newAttrs ++
      mkChrDict version chrs ++ mkResArray bp ++ mkResArray frag ++ P1)
    rest fsize entries hpos0 hecount hkeys hposs
  have hstage3 := patchNviIndex_mk_v8 magic version footerPos genome nviPos nviLen attrs
    chrs bp frag (deltaSizeT attrs newAttrs)
    ((mkHeader magic version (footerPos + toSigned 8 (deltaSizeT attrs newAttrs)) genome
      (nviPos + toSigned 8 (deltaSizeT attrs newAttrs)) nviLen newAttrs ++
      mkChrDict version chrs ++ mkResArray bp ++ mkResArray frag ++ P1) ++
      (mkMasterIndex version fsize
        (entries.map (bumpMasterEntry (toSigned 8 (deltaSizeT attrs newAttrs)))) ++ rest)) hv
  unfold runProgram
  simp only [hparse]
  simp only [horig, hbuild]
  simp only [hwrite, patchPointers, Option.bind_eq_bind]
  rw [hreg1]
  rw [hstage1]
  simp only [Option.some_bind]
  rw [hreg2, hstage2]
  simp only [Option.some_bind]
  rw [hstage3]
  simp [List.append_assoc]

theorem length_flatten_master_bump (d : Int) (entries : List MasterEntry) :
    (((entries.map (bumpMasterEntry d)).map mkMasterEntry).flatten).length =
      ((entries.map mkMasterEntry).flatten).length := by
  induction entries with
  | nil => rfl
  | cons e es ih =>
      simp only [List.map_cons, List.flatten_cons, List.length_append, ih,
        length_mkMasterEntry, bumpMasterEntry]

theorem length_mkMasterIndex_bump (version fsize : Int) (d : Int)
    (entries : List MasterEntry) :
    (mkMasterIndex version fsize (entries.map (bumpMasterEntry d))).length =
      (mkMasterIndex version fsize entries).length := by
  simp only [mkMasterIndex, List.length_append, List.length_map, length_flatten_master_bump]

/-- End-to-end run on a well-formed version > 8 layout: the output is the
same layout with the new attribute list; the footer position, the NVI
position, every master-index entry position and every NVI entry position
move by the one signed delta; the NVI length, entry sizes, counts and all
other bytes are unchanged. -/
theorem runProgram_mk_v9 (magic genome : List Byte) (version footerPos fsize : Int)
    (nviPos nviLen : Int) (attrs newAttrs : List AttrKV) (chrs : List (List Byte × Int))
    (bp frag : List Int) (P1 P2 P3 : List Byte) (entries : List MasterEntry)
    (nviEntries : List NviEntry) (statContent graphContent : List Byte)
    (hv : version > 8)
    (hm : (0 : Byte) ∉ magic) (hg : (0 : Byte) ∉ genome)
    (hattrs : ∀ a ∈ attrs, (0 : Byte) ∉ a.key ∧ (0 : Byte) ∉ a.value)
    (hacount : attrs.length < 2 ^ 31)
    (hver0 : -(2 ^ 31) ≤ version) (hver1 : version < 2 ^ 31)
    (hfp0 : -(2 ^ 63) ≤ footerPos) (hfp1 : footerPos < 2 ^ 63)
    (hnp0 : -(2 ^ 63) ≤ nviPos) (hnp1 : nviPos < 2 ^ 63)
    (hnl0 : -(2 ^ 63) ≤ nviLen) (hnl1 : nviLen < 2 ^ 63)
    (hchrs : ∀ c ∈ chrs, (0 : Byte) ∉ c.1) (hccount : chrs.length < 2 ^ 31)
    (hbp : bp.length < 2 ^ 31) (hfrag : frag.length < 2 ^ 31)
    (hsz1 : attrBytesLoop attrs < 2 ^ 63) (hsz2 : attrBytesLoop newAttrs < 2 ^ 63)
    (hbuild : buildNewAttrs attrs (load_value_file_text statContent)
      (load_value_file_text graphContent) = some newAttrs)
    (hecount : entries.length < 2 ^ 31)
    (hkeys : ∀ e ∈ entries, (0 : Byte) ∉ e.key)
    (hposs : ∀ e ∈ entries, -(2 ^ 63) ≤ e.position ∧ e.position < 2 ^ 63)
    (hnecount : nviEntries.length < 2 ^ 31)
    (hnstrs : ∀ e ∈ nviEntries, (0 : Byte) ∉ e.typ ∧ (0 : Byte) ∉ e.unit)
    (hnposs : ∀ e ∈ nviEntries, -(2 ^ 63) ≤ e.position ∧ e.position < 2 ^ 63)
    (hfpeq : footerPos = ((mkHeader magic version footerPos genome nviPos nviLen attrs).length +
      (mkChrDict version chrs).length + (mkResArray bp).length + (mkResArray frag).length +
      P1.length : Nat))
    (hnpeq : nviPos = ((mkHeader magic version footerPos genome nviPos nviLen attrs).length +
      (mkChrDict version chrs).length + (mkResArray bp).length + (mkResArray frag).length +
      P1.length + (mkMasterIndex version fsize entries).length + P2.length : Nat)) :
    runProgram (mkHeader magic version footerPos genome nviPos nviLen attrs ++
        mkChrDict version chrs ++ mkResArray bp ++ mkResArray frag ++
        (P1 ++ (mkMasterIndex version fsize entries ++
          (P2 ++ (mkNviIndex nviEntries ++ P3))))) statContent graphContent =
      .success
        (mkHeader magic version (footerPos + toSigned 8 (deltaSizeT attrs newAttrs)) genome
          (nviPos + toSigned 8 (deltaSizeT attrs newAttrs)) nviLen newAttrs ++
          mkChrDict version chrs ++ mkResArray bp ++ mkResArray frag ++
          (P1 ++ (mkMasterIndex version fsize
            (entries.map (bumpMasterEntry (toSigned 8 (deltaSizeT attrs newAttrs)))) ++
            (P2 ++ (mkNviIndex
              (nviEntries.map (bumpNviEntry (toSigned 8 (deltaSizeT attrs newAttrs)))) ++
              P3)))))
        (deltaSizeT attrs newAttrs) := by
  have hδeq := deltaInt64_eq_size_diff attrs newAttrs hsz1 hsz2
  have hparse := parseHeader_mk magic version footerPos genome nviPos nviLen attrs chrs bp frag
    (P1 ++ (mkMasterIndex version fsize entries ++ (P2 ++ (mkNviIndex nviEntries ++ P3))))
    hm hg hattrs hacount hver0 hver1 hfp0 hfp1 hnp0 hnp1 hnl0 hnl1 hchrs hccount hbp hfrag
  have horig : (mkParsedHeader magic version footerPos genome nviPos nviLen attrs
      chrs bp frag).origAttrs = attrs := rfl
  have hwrite := writeOutput_mk magic version footerPos genome nviPos nviLen attrs newAttrs
    chrs bp frag
    (P1 ++ (mkMasterIndex version fsize entries ++ (P2 ++ (mkNviIndex nviEntries ++ P3))))
  have hreg1 : mkHeader magic version footerPos genome nviPos nviLen newAttrs ++
      mkChrDict version chrs ++ mkResArray bp ++ mkResArray frag ++
      (P1 ++ (mkMasterIndex version fsize entries ++
        (P2 ++ (mkNviIndex nviEntries ++ P3)))) =
      mkHeader magic version footerPos genome nviPos nviLen newAttrs ++
        (mkChrDict version chrs ++ (mkResArray bp ++ (mkResArray frag ++
          (P1 ++ (mkMasterIndex version fsize entries ++
            (P2 ++ (mkNviIndex nviEntries ++ P3))))))) := by
    simp [List.append_assoc]
  have hstage1 := patchHeaderFields_mk magic version footerPos genome nviPos nviLen attrs
    newAttrs chrs bp frag
    (mkChrDict version chrs ++ (mkResArray bp ++ (mkResArray frag ++
      (P1 ++ (mkMasterIndex version fsize entries ++
        (P2 ++ (mkNviIndex nviEntries ++ P3)))))))
    (deltaSizeT attrs newAttrs)
  have hreg2 : mkHeader magic version (footerPos + toSigned 8 (deltaSizeT attrs newAttrs))
      genome (nviPos + toSigned 8 (deltaSizeT attrs newAttrs)) nviLen newAttrs ++
      (mkChrDict version chrs ++ (mkResArray bp ++ (mkResArray frag ++
        (P1 ++ (mkMasterIndex version fsize entries ++
          (P2 ++ (mkNviIndex nviEntries ++ P3))))))) =
      (mkHeader magic version (footerPos + toSigned 8 (deltaSizeT attrs newAttrs)) genome
        (nviPos + toSigned 8 (deltaSizeT attrs newAttrs)) nviLen newAttrs ++
        mkChrDict version chrs ++ mkResArray bp ++ mkResArray frag ++ P1) ++
        (mkMasterIndex version fsize entries ++
          (P2 ++ (mkNviIndex nviEntries ++ P3))) := by
    simp [List.append_assoc]
  have hpos0 : footerPos + toSigned 8 (deltaSizeT attrs newAttrs) =
      (((mkHeader magic version (footerPos + toSigned 8 (deltaSizeT attrs newAttrs)) genome
        (nviPos + toSigned 8 (deltaSizeT attrs newAttrs)) nviLen newAttrs ++
        mkChrDict version chrs ++ mkResArray bp ++ mkResArray frag ++ P1).length : Nat) : Int) := by
    rw [hδeq]
    rw [hfpeq]
    simp only [List.length_append, length_mkHeader]
    push_cast
    ring
  have hstage2 := patchMasterIndex_mk magic version footerPos genome nviPos nviLen attrs
    chrs bp frag (deltaSizeT attrs newAttrs)
    (mkHeader magic version (footerPos + toSigned 8 (deltaSizeT attrs newAttrs)) genome
      (nviPos + toSigned 8 (deltaSizeT attrs newAttrs)) nviLen newAttrs ++
      mkChrDict version chrs ++ mkResArray bp ++ mkResArray frag ++ P1)
    (P2 ++ (mkNviIndex nviEntries ++ P3)) fsize entries hpos0 hecount hkeys hposs
  have hreg3 : (mkHeader magic version (footerPos + toSigned 8 (deltaSizeT attrs newAttrs))
      genome (nviPos + toSigned 8 (deltaSizeT attrs newAttrs)) nviLen newAttrs ++
      mkChrDict version chrs ++ mkResArray bp ++ mkResArray frag ++ P1) ++
      (mkMasterIndex version fsize
        (entries.map (bumpMasterEntry (toSigned 8 (deltaSizeT attrs newAttrs)))) ++
        (P2 ++ (mkNviIndex nviEntries ++ P3))) =
      (mkHeader magic version (footerPos + toSigned 8 (deltaSizeT attrs newAttrs)) genome
        (nviPos + toSigned 8 (deltaSizeT attrs newAttrs)) nviLen newAttrs ++
        mkChrDict version chrs ++ mkResArray bp ++ mkResArray frag ++ P1 ++
        mkMasterIndex version fsize
          (entries.map (bumpMasterEntry (toSigned 8 (deltaSizeT attrs newAttrs)))) ++ P2) ++
        (mkNviIndex nviEntries ++ P3) := by
    simp [List.append_assoc]
  have hpos0n : nviPos + toSigned 8 (deltaSizeT attrs newAttrs) =
      (((mkHeader magic version (footerPos + toSigned 8 (deltaSizeT attrs newAttrs)) genome
        (nviPos + toSigned 8 (deltaSizeT attrs newAttrs)) nviLen newAttrs ++
        mkChrDict version chrs ++ mkResArray bp ++ mkResArray frag ++ P1 ++
        mkMasterIndex version fsize
          (entries.map (bumpMasterEntry (toSigned 8 (deltaSizeT attrs newAttrs)))) ++
        P2).length : Nat) : Int) := by
    rw [hδeq]
    rw [hnpeq]
    simp only [List.length_append, length_mkHeader, length_mkMasterIndex_bump]
    push_cast
    ring
  have hstage3 := patchNviIndex_mk_v9 magic version footerPos genome nviPos nviLen attrs
    chrs bp frag (deltaSizeT attrs newAttrs)
    (mkHeader magic version (footerPos + toSigned 8 (deltaSizeT attrs newAttrs)) genome
      (nviPos + toSigned 8 (deltaSizeT attrs newAttrs)) nviLen newAttrs ++
      mkChrDict version chrs ++ mkResArray bp ++ mkResArray frag ++ P1 ++
      mkMasterIndex version fsize
        (entries.map (bumpMasterEntry (toSigned 8 (deltaSizeT attrs newAttrs)))) ++ P2)
    P3 nviEntries hv hpos0n hnecount hnstrs hnposs
  unfold runProgram
  simp only [hparse]
  simp only [horig, hbuild]
  simp only [hwrite, patchPointers, Option.bind_eq_bind]
  rw [hreg1]
  rw [hstage1]
  simp only [Option.some_bind]
  rw [hreg2, hstage2]
  simp only [Option.some_bind]
  rw [hreg3, hstage3]
  simp [List.append_assoc]

/-- C1: on every well-formed input and every edit, the output of the run
is the same layout with the new attribute list in which the footer
position, the version-gated NVI position, every master-index entry
position and (for version > 8) every NVI entry position equal their
original value plus the one signed delta, which equals the serialized
size difference of the edit; every other byte of the layout — and with it
every quantity stored before the attribute block — is unchanged. -/
theorem c1_uniform_offset_patch (magic genome : List Byte) (version footerPos fsize : Int)
    (nviPos nviLen : Int) (attrs newAttrs : List AttrKV) (chrs : List (List Byte × Int))
    (bp frag : List Int) (P1 rest P2 P3 : List Byte) (entries : List MasterEntry)
    (nviEntries : List NviEntry) (statContent graphContent : List Byte)
    (hm : (0 : Byte) ∉ magic) (hg : (0 : Byte) ∉ genome)
    (hattrs : ∀ a ∈ attrs, (0 : Byte) ∉ a.key ∧ (0 : Byte) ∉ a.value)
    (hacount : attrs.length < 2 ^ 31)
    (hver0 : -(2 ^ 31) ≤ version) (hver1 : version < 2 ^ 31)
    (hfp0 : -(2 ^ 63) ≤ footerPos) (hfp1 : footerPos < 2 ^ 63)
    (hnp0 : -(2 ^ 63) ≤ nviPos) (hnp1 : nviPos < 2 ^ 63)
    (hnl0 : -(2 ^ 63) ≤ nviLen) (hnl1 : nviLen < 2 ^ 63)
    (hchrs : ∀ c ∈ chrs, (0 : Byte) ∉ c.1) (hccount : chrs.length < 2 ^ 31)
    (hbp : bp.length < 2 ^ 31) (hfrag : frag.length < 2 ^ 31)
    (hsz1 : attrBytesLoop attrs < 2 ^ 63) (hsz2 : attrBytesLoop newAttrs < 2 ^ 63)
    (hbuild : buildNewAttrs attrs (load_value_file_text statContent)
      (load_value_file_text graphContent) = some newAttrs)
    (hecount : entries.length < 2 ^ 31)
    (hkeys : ∀ e ∈ entries, (0 : Byte) ∉ e.key)
    (hposs : ∀ e ∈ entries, -(2 ^ 63) ≤ e.position ∧ e.position < 2 ^ 63)
    (hnecount : nviEntries.length < 2 ^ 31)
    (hnstrs : ∀ e ∈ nviEntries, (0 : Byte) ∉ e.typ ∧ (0 : Byte) ∉ e.unit)
    (hnposs : ∀ e ∈ nviEntries, -(2 ^ 63) ≤ e.position ∧ e.position < 2 ^ 63)
    (hfpeq : footerPos = ((mkHeader magic version footerPos genome nviPos nviLen attrs).length +
      (mkChrDict version chrs).length + (mkResArray bp).length + (mkResArray frag).length +
      P1.length : Nat))
    (hnvi : version > 8 → rest = P2 ++ (mkNviIndex nviEntries ++ P3))
    (hnpeq : version > 8 →
      nviPos = ((mkHeader magic version footerPos genome nviPos nviLen attrs).length +
        (mkChrDict version chrs).length + (mkResArray bp).length + (mkResArray frag).length +
        P1.length + (mkMasterIndex version fsize entries).length + P2.length : Nat)) :
    runProgram (mkHeader magic version footerPos genome nviPos nviLen attrs ++
        mkChrDict version chrs ++ mkResArray bp ++ mkResArray frag ++
        (P1 ++ (mkMasterIndex version fsize entries ++ rest))) statContent graphContent =
      .success
        (mkHeader magic version (footerPos + toSigned 8 (deltaSizeT attrs newAttrs)) genome
          (nviPos + toSigned 8 (deltaSizeT attrs newAttrs)) nviLen newAttrs ++
          mkChrDict version chrs ++ mkResArray bp ++ mkResArray frag ++
          (P1 ++ (mkMasterIndex version fsize
            (entries.map (bumpMasterEntry (toSigned 8 (deltaSizeT attrs newAttrs)))) ++
            (if version > 8
              then P2 ++ (mkNviIndex (nviEntries.map
                (bumpNviEntry (toSigned 8 (deltaSizeT attrs newAttrs)))) ++ P3)
              else rest))))
        (deltaSizeT attrs newAttrs) ∧
    toSigned 8 (deltaSizeT attrs newAttrs) =
      ((serializeAttrs newAttrs).length : Int) - ((serializeAttrs attrs).length : Int) := by
  refine ⟨?_, deltaInt64_eq_size_diff attrs newAttrs hsz1 hsz2⟩
  by_cases hv : version > 8
  · rw [hnvi hv, if_pos hv]
    exact runProgram_mk_v9 magic genome version footerPos fsize nviPos nviLen attrs newAttrs
      chrs bp frag P1 P2 P3 entries nviEntries statContent graphContent hv hm hg hattrs
      hacount hver0 hver1 hfp0 hfp1 hnp0 hnp1 hnl0 hnl1 hchrs hccount hbp hfrag hsz1 hsz2
      hbuild hecount hkeys hposs hnecount hnstrs hnposs hfpeq (hnpeq hv)
  · rw [if_neg hv]
    exact runProgram_mk_v8 magic genome version footerPos fsize nviPos nviLen attrs newAttrs
      chrs bp frag P1 rest entries statContent graphContent hv hm hg hattrs hacount hver0
      hver1 hfp0 hfp1 hnp0 hnp1 hnl0 hnl1 hchrs hccount hbp hfrag hsz1 hsz2 hbuild hecount
      hkeys hposs hfpeq

/-- Concrete version-9 original attribute list for witnesses. -/
def w9Attrs : List AttrKV := [⟨softwareKey, [120]⟩]

/-- The edited attribute list for the version-9 witness instance. -/
def w9NewAttrs : List AttrKV :=
  [⟨softwareKey, [120]⟩, ⟨statisticsKey, []⟩, ⟨graphsKey, []⟩]

/-- Master index of the version-9 witness instance. -/
def w9Entries : List MasterEntry := [⟨[107], 77, 5⟩]

/-- Normalization-vector index of the version-9 witness instance. -/
def w9NviEntries : List NviEntry := [⟨[66], 1, [85], 10, 99, 7⟩]

/-- The version-9 witness input file. -/
def w9File : List Byte :=
  mkHeader [72, 73, 67] 9 61 [103] 87 32 w9Attrs ++ mkChrDict 9 [] ++ mkResArray [] ++
    mkResArray [] ++ ([] ++ (mkMasterIndex 9 0 w9Entries ++
      ([] ++ (mkNviIndex w9NviEntries ++ []))))

/-- The stored (wrapped) delta of the witness edit. -/
def w9Delta : Nat := deltaSizeT w9Attrs w9NewAttrs

/-- The expected output file of the version-9 witness run. -/
def w9Out : List Byte :=
  mkHeader [72, 73, 67] 9 (61 + toSigned 8 w9Delta) [103] (87 + toSigned 8 w9Delta) 32
    w9NewAttrs ++ mkChrDict 9 [] ++ mkResArray [] ++ mkResArray [] ++
    ([] ++ (mkMasterIndex 9 0 (w9Entries.map (bumpMasterEntry (toSigned 8 w9Delta))) ++
      ([] ++ (mkNviIndex (w9NviEntries.map (bumpNviEntry (toSigned 8 w9Delta))) ++ []))))

/-- C1 witness: a concrete version-9 file whose footer, master-index and
NVI positions all move by the one delta of the edit. -/
theorem c1_uniform_offset_patch_witness :
    buildNewAttrs w9Attrs (load_value_file_text []) (load_value_file_text []) =
      some w9NewAttrs ∧
    (61 : Int) = ((mkHeader [72, 73, 67] 9 61 [103] 87 32 w9Attrs).length +
      (mkChrDict 9 []).length + (mkResArray []).length + (mkResArray []).length +
      ([] : List Byte).length : Nat) ∧
    runProgram w9File [] [] = .success w9Out w9Delta ∧
    toSigned 8 w9Delta =
      ((serializeAttrs w9NewAttrs).length : Int) - ((serializeAttrs w9Attrs).length : Int) := by
  have hload : load_value_file_text ([] : List Byte) = [] := by
    simp [load_value_file_text]
  have hbuild : buildNewAttrs w9Attrs (load_value_file_text []) (load_value_file_text []) =
      some w9NewAttrs := by
    rw [hload]
    decide
  have h := c1_uniform_offset_patch [72, 73, 67] [103] 9 61 0 87 32 w9Attrs w9NewAttrs
    [] [] [] [] ([] ++ (mkNviIndex w9NviEntries ++ [])) [] [] w9Entries w9NviEntries [] []
    (by decide) (by decide) (by decide) (by decide) (by decide) (by decide) (by decide)
    (by decide) (by decide) (by decide) (by decide) (by decide) (by decide) (by decide)
    (by decide) (by decide) (by decide) (by decide) hbuild (by decide) (by decide)
    (by decide) (by decide) (by decide) (by decide) (by decide) (fun _ => rfl)
    (fun _ => by decide)
  have h1 := h.1
  rw [if_pos (by norm_num : (9 : Int) > 8)] at h1
  exact ⟨hbuild, by decide, h1, h.2⟩

theorem map_bumpNviEntry_position (d : Int) (es : List NviEntry) :
    (es.map (bumpNviEntry d)).map (fun e => e.position) =
      es.map (fun e => e.position + d) := by
  induction es with
  | nil => rfl
  | cons e es ih => simp [bumpNviEntry, ih]

theorem map_bumpNviEntry_size (d : Int) (es : List NviEntry) :
    (es.map (bumpNviEntry d)).map (fun e => e.sizeInBytes) =
      es.map (fun e => e.sizeInBytes) := by
  induction es with
  | nil => rfl
  | cons e es ih => simp [bumpNviEntry, ih]

/-- C4: version gating of the normalization-vector index.  For version ≤ 8
the reader records no NVI fields (they stay at their zero initialization)
and the run patches none: the output moves only the footer and
master-entry positions.  For version > 8 exactly the one header
position/length pair is rewritten (the position by delta, the length with
its original value), and every NVI entry position is patched while entry
sizes keep their original values. -/
theorem c4_version_gating (magic genome : List Byte) (version footerPos fsize : Int)
    (nviPos nviLen : Int) (attrs newAttrs : List AttrKV) (chrs : List (List Byte × Int))
    (bp frag : List Int) (P1 rest P2 P3 : List Byte) (entries : List MasterEntry)
    (nviEntries : List NviEntry) (statContent graphContent : List Byte)
    (hm : (0 : Byte) ∉ magic) (hg : (0 : Byte) ∉ genome)
    (hattrs : ∀ a ∈ attrs, (0 : Byte) ∉ a.key ∧ (0 : Byte) ∉ a.value)
    (hacount : attrs.length < 2 ^ 31)
    (hver0 : -(2 ^ 31) ≤ version) (hver1 : version < 2 ^ 31)
    (hfp0 : -(2 ^ 63) ≤ footerPos) (hfp1 : footerPos < 2 ^ 63)
    (hnp0 : -(2 ^ 63) ≤ nviPos) (hnp1 : nviPos < 2 ^ 63)
    (hnl0 : -(2 ^ 63) ≤ nviLen) (hnl1 : nviLen < 2 ^ 63)
    (hchrs : ∀ c ∈ chrs, (0 : Byte) ∉ c.1) (hccount : chrs.length < 2 ^ 31)
    (hbp : bp.length < 2 ^ 31) (hfrag : frag.length < 2 ^ 31)
    (hsz1 : attrBytesLoop attrs < 2 ^ 63) (hsz2 : attrBytesLoop newAttrs < 2 ^ 63)
    (hbuild : buildNewAttrs attrs (load_value_file_text statContent)
      (load_value_file_text graphContent) = some newAttrs)
    (hecount : entries.length < 2 ^ 31)
    (hkeys : ∀ e ∈ entries, (0 : Byte) ∉ e.key)
    (hposs : ∀ e ∈ entries, -(2 ^ 63) ≤ e.position ∧ e.position < 2 ^ 63)
    (hnecount : nviEntries.length < 2 ^ 31)
    (hnstrs : ∀ e ∈ nviEntries, (0 : Byte) ∉ e.typ ∧ (0 : Byte) ∉ e.unit)
    (hnposs : ∀ e ∈ nviEntries, -(2 ^ 63) ≤ e.position ∧ e.position < 2 ^ 63)
    (hfpeq : footerPos = ((mkHeader magic version footerPos genome nviPos nviLen attrs).length +
      (mkChrDict version chrs).length + (mkResArray bp).length + (mkResArray frag).length +
      P1.length : Nat))
    (hnvi : version > 8 → rest = P2 ++ (mkNviIndex nviEntries ++ P3))
    (hnpeq : version > 8 →
      nviPos = ((mkHeader magic version footerPos genome nviPos nviLen attrs).length +
        (mkChrDict version chrs).length + (mkResArray bp).length + (mkResArray frag).length +
        P1.length + (mkMasterIndex version fsize entries).length + P2.length : Nat)) :
    ((¬ version > 8) →
      (mkParsedHeader magic version footerPos genome nviPos nviLen attrs chrs bp
        frag).nviPosField = 0 ∧
      (mkParsedHeader magic version footerPos genome nviPos nviLen attrs chrs bp
        frag).origNviPos = 0 ∧
      (mkParsedHeader magic version footerPos genome nviPos nviLen attrs chrs bp
        frag).origNviLen = 0 ∧
      runProgram (mkHeader magic version footerPos genome nviPos nviLen attrs ++
          mkChrDict version chrs ++ mkResArray bp ++ mkResArray frag ++
          (P1 ++ (mkMasterIndex version fsize entries ++ rest))) statContent graphContent =
        .success
          (mkHeader magic version (footerPos + toSigned 8 (deltaSizeT attrs newAttrs)) genome
            (nviPos + toSigned 8 (deltaSizeT attrs newAttrs)) nviLen newAttrs ++
            mkChrDict version chrs ++ mkResArray bp ++ mkResArray frag ++
            (P1 ++ (mkMasterIndex version fsize
              (entries.map (bumpMasterEntry (toSigned 8 (deltaSizeT attrs newAttrs)))) ++
              rest)))
          (deltaSizeT attrs newAttrs)) ∧
    (version > 8 →
      runProgram (mkHeader magic version footerPos genome nviPos nviLen attrs ++
          mkChrDict version chrs ++ mkResArray bp ++ mkResArray frag ++
          (P1 ++ (mkMasterIndex version fsize entries ++ rest))) statContent graphContent =
        .success
          (mkHeader magic version (footerPos + toSigned 8 (deltaSizeT attrs newAttrs)) genome
            (nviPos + toSigned 8 (deltaSizeT attrs newAttrs)) nviLen newAttrs ++
            mkChrDict version chrs ++ mkResArray bp ++ mkResArray frag ++
            (P1 ++ (mkMasterIndex version fsize
              (entries.map (bumpMasterEntry (toSigned 8 (deltaSizeT attrs newAttrs)))) ++
              (P2 ++ (mkNviIndex (nviEntries.map
                (bumpNviEntry (toSigned 8 (deltaSizeT attrs newAttrs)))) ++ P3)))))
          (deltaSizeT attrs newAttrs) ∧
      ((nviEntries.map (bumpNviEntry (toSigned 8 (deltaSizeT attrs newAttrs)))).map
          (fun e => e.position) =
        nviEntries.map (fun e => e.position + toSigned 8 (deltaSizeT attrs newAttrs))) ∧
      ((nviEntries.map (bumpNviEntry (toSigned 8 (deltaSizeT attrs newAttrs)))).map
          (fun e => e.sizeInBytes) =
        nviEntries.map (fun e => e.sizeInBytes))) := by
  constructor
  · intro hv
    refine ⟨by simp [mkParsedHeader, if_neg hv], by simp [mkParsedHeader, if_neg hv],
      by simp [mkParsedHeader, if_neg hv], ?_⟩
    exact runProgram_mk_v8 magic genome version footerPos fsize nviPos nviLen attrs newAttrs
      chrs bp frag P1 rest entries statContent graphContent hv hm hg hattrs hacount hver0
      hver1 hfp0 hfp1 hnp0 hnp1 hnl0 hnl1 hchrs hccount hbp hfrag hsz1 hsz2 hbuild hecount
      hkeys hposs hfpeq
  · intro hv
    refine ⟨?_, map_bumpNviEntry_position _ _, map_bumpNviEntry_size _ _⟩
    rw [hnvi hv]
    exact runProgram_mk_v9 magic genome version footerPos fsize nviPos nviLen attrs newAttrs
      chrs bp frag P1 P2 P3 entries nviEntries statContent graphContent hv hm hg hattrs
      hacount hver0 hver1 hfp0 hfp1 hnp0 hnp1 hnl0 hnl1 hchrs hccount hbp hfrag hsz1 hsz2
      hbuild hecount hkeys hposs hnecount hnstrs hnposs hfpeq (hnpeq hv)

/-- The version-8 witness input file (no normalization-vector index). -/
def w8File : List Byte :=
  mkHeader [72, 73, 67] 8 45 [103] 0 0 w9Attrs ++ mkChrDict 8 [] ++ mkResArray [] ++
    mkResArray [] ++ ([] ++ (mkMasterIndex 8 0 w9Entries ++ []))

/-- The expected output of the version-8 witness run. -/
def w8Out : List Byte :=
  mkHeader [72, 73, 67] 8 (45 + toSigned 8 w9Delta) [103] (0 + toSigned 8 w9Delta) 0
    w9NewAttrs ++ mkChrDict 8 [] ++ mkResArray [] ++ mkResArray [] ++
    ([] ++ (mkMasterIndex 8 0 (w9Entries.map (bumpMasterEntry (toSigned 8 w9Delta))) ++ []))

/-- C4 witness: on a concrete version-8 file the reader records no NVI
fields and the run patches only the footer and master positions. -/
theorem c4_version_gating_witness :
    buildNewAttrs w9Attrs (load_value_file_text []) (load_value_file_text []) =
      some w9NewAttrs ∧
    (45 : Int) = ((mkHeader [72, 73, 67] 8 45 [103] 0 0 w9Attrs).length +
      (mkChrDict 8 []).length + (mkResArray []).length + (mkResArray []).length +
      ([] : List Byte).length : Nat) ∧
    ((mkParsedHeader [72, 73, 67] 8 45 [103] 0 0 w9Attrs [] [] []).nviPosField = 0 ∧
      (mkParsedHeader [72, 73, 67] 8 45 [103] 0 0 w9Attrs [] [] []).origNviPos = 0 ∧
      (mkParsedHeader [72, 73, 67] 8 45 [103] 0 0 w9Attrs [] [] []).origNviLen = 0 ∧
      runProgram w8File [] [] = .success w8Out w9Delta) := by
  have hload : load_value_file_text ([] : List Byte) = [] := by
    simp [load_value_file_text]
  have hbuild : buildNewAttrs w9Attrs (load_value_file_text []) (load_value_file_text []) =
      some w9NewAttrs := by
    rw [hload]
    decide
  have h := c4_version_gating [72, 73, 67] [103] 8 45 0 0 0 w9Attrs w9NewAttrs
    [] [] [] [] [] [] [] w9Entries [] [] []
    (by decide) (by decide) (by decide) (by decide) (by decide) (by decide) (by decide)
    (by decide) (by decide) (by decide) (by decide) (by decide) (by decide) (by decide)
    (by decide) (by decide) (by decide) (by decide) hbuild (by decide) (by decide)
    (by decide) (by decide) (by decide) (by decide) (by decide)
    (fun hc => absurd hc (by decide)) (fun hc => absurd hc (by decide))
  exact ⟨hbuild, by decide, h.1 (by decide)⟩

theorem map_bumpMasterEntry_zero (es : List MasterEntry) :
    es.map (bumpMasterEntry 0) = es := by
  induction es with
  | nil => rfl
  | cons e es ih => simp [bumpMasterEntry, ih]

theorem map_bumpNviEntry_zero (es : List NviEntry) :
    es.map (bumpNviEntry 0) = es := by
  induction es with
  | nil => rfl
  | cons e es ih => simp [bumpNviEntry, ih]

/-- C5 (amended): when the edit yields an attribute list with the same
serialized encoding as the original AND the same number of entries, the
delta is zero and the output file is byte-for-byte identical to the
input. -/
theorem c5_zero_delta_identity (magic genome : List Byte) (version footerPos fsize : Int)
    (nviPos nviLen : Int) (attrs newAttrs : List AttrKV) (chrs : List (List Byte × Int))
    (bp frag : List Int) (P1 rest P2 P3 : List Byte) (entries : List MasterEntry)
    (nviEntries : List NviEntry) (statContent graphContent : List Byte)
    (hm : (0 : Byte) ∉ magic) (hg : (0 : Byte) ∉ genome)
    (hattrs : ∀ a ∈ attrs, (0 : Byte) ∉ a.key ∧ (0 : Byte) ∉ a.value)
    (hacount : attrs.length < 2 ^ 31)
    (hver0 : -(2 ^ 31) ≤ version) (hver1 : version < 2 ^ 31)
    (hfp0 : -(2 ^ 63) ≤ footerPos) (hfp1 : footerPos < 2 ^ 63)
    (hnp0 : -(2 ^ 63) ≤ nviPos) (hnp1 : nviPos < 2 ^ 63)
    (hnl0 : -(2 ^ 63) ≤ nviLen) (hnl1 : nviLen < 2 ^ 63)
    (hchrs : ∀ c ∈ chrs, (0 : Byte) ∉ c.1) (hccount : chrs.length < 2 ^ 31)
    (hbp : bp.length < 2 ^ 31) (hfrag : frag.length < 2 ^ 31)
    (hsz1 : attrBytesLoop attrs < 2 ^ 63) (hsz2 : attrBytesLoop newAttrs < 2 ^ 63)
    (hbuild : buildNewAttrs attrs (load_value_file_text statContent)
      (load_value_file_text graphContent) = some newAttrs)
    (hecount : entries.length < 2 ^ 31)
    (hkeys : ∀ e ∈ entries, (0 : Byte) ∉ e.key)
    (hposs : ∀ e ∈ entries, -(2 ^ 63) ≤ e.position ∧ e.position < 2 ^ 63)
    (hnecount : nviEntries.length < 2 ^ 31)
    (hnstrs : ∀ e ∈ nviEntries, (0 : Byte) ∉ e.typ ∧ (0 : Byte) ∉ e.unit)
    (hnposs : ∀ e ∈ nviEntries, -(2 ^ 63) ≤ e.position ∧ e.position < 2 ^ 63)
    (hfpeq : footerPos = ((mkHeader magic version footerPos genome nviPos nviLen attrs).length +
      (mkChrDict version chrs).length + (mkResArray bp).length + (mkResArray frag).length +
      P1.length : Nat))
    (hnvi : version > 8 → rest = P2 ++ (mkNviIndex nviEntries ++ P3))
    (hnpeq : version > 8 →
      nviPos = ((mkHeader magic version footerPos genome nviPos nviLen attrs).length +
        (mkChrDict version chrs).length + (mkResArray bp).length + (mkResArray frag).length +
        P1.length + (mkMasterIndex version fsize entries).length + P2.length : Nat))
    (hser : serializeAttrs newAttrs = serializeAttrs attrs)
    (hcnt : newAttrs.length = attrs.length) :
    deltaSizeT attrs newAttrs = 0 ∧
    runProgram (mkHeader magic version footerPos genome nviPos nviLen attrs ++
        mkChrDict version chrs ++ mkResArray bp ++ mkResArray frag ++
        (P1 ++ (mkMasterIndex version fsize entries ++ rest))) statContent graphContent =
      .success (mkHeader magic version footerPos genome nviPos nviLen attrs ++
        mkChrDict version chrs ++ mkResArray bp ++ mkResArray frag ++
        (P1 ++ (mkMasterIndex version fsize entries ++ rest))) 0 := by
  have hloopeq : attrBytesLoop newAttrs = attrBytesLoop attrs := by
    rw [← length_serializeAttrs, ← length_serializeAttrs, hser]
  have hδ0 : deltaSizeT attrs newAttrs = 0 := by
    unfold deltaSizeT
    rw [hloopeq]
    simp
  have hts0 : toSigned 8 (0 : Nat) = 0 := by decide
  have hhdr : mkHeader magic version footerPos genome nviPos nviLen newAttrs =
      mkHeader magic version footerPos genome nviPos nviLen attrs := by
    unfold mkHeader
    rw [hser, hcnt]
  refine ⟨hδ0, ?_⟩
  by_cases hv : version > 8
  · rw [hnvi hv]
    have h := runProgram_mk_v9 magic genome version footerPos fsize nviPos nviLen attrs
      newAttrs chrs bp frag P1 P2 P3 entries nviEntries statContent graphContent hv hm hg
      hattrs hacount hver0 hver1 hfp0 hfp1 hnp0 hnp1 hnl0 hnl1 hchrs hccount hbp hfrag
      hsz1 hsz2 hbuild hecount hkeys hposs hnecount hnstrs hnposs hfpeq (hnpeq hv)
    rw [hδ0, hts0] at h
    simp only [add_zero, map_bumpMasterEntry_zero, map_bumpNviEntry_zero, hhdr] at h
    exact h
  · have h := runProgram_mk_v8 magic genome version footerPos fsize nviPos nviLen attrs
      newAttrs chrs bp frag P1 rest entries statContent graphContent hv hm hg hattrs
      hacount hver0 hver1 hfp0 hfp1 hnp0 hnp1 hnl0 hnl1 hchrs hccount hbp hfrag hsz1 hsz2
      hbuild hecount hkeys hposs hfpeq
    rw [hδ0, hts0] at h
    simp only [add_zero, map_bumpMasterEntry_zero, hhdr] at h
    exact h

/-- The version-8 witness input file whose attribute list already carries
the inserted pairs with identical values. -/
def w5File : List Byte :=
  mkHeader [72, 73, 67] 8 65 [103] 0 0 w9NewAttrs ++ mkChrDict 8 [] ++ mkResArray [] ++
    mkResArray [] ++ ([] ++ (mkMasterIndex 8 0 w9Entries ++ []))

/-- C5 witness: a zero-net edit leaves the concrete file untouched. -/
theorem c5_zero_delta_identity_witness :
    buildNewAttrs w9NewAttrs (load_value_file_text []) (load_value_file_text []) =
      some w9NewAttrs ∧
    serializeAttrs w9NewAttrs = serializeAttrs w9NewAttrs ∧
    (deltaSizeT w9NewAttrs w9NewAttrs = 0 ∧
      runProgram w5File [] [] = .success w5File 0) := by
  have hload : load_value_file_text ([] : List Byte) = [] := by
    simp [load_value_file_text]
  have hbuild : buildNewAttrs w9NewAttrs (load_value_file_text [])
      (load_value_file_text []) = some w9NewAttrs := by
    rw [hload]
    decide
  have h := c5_zero_delta_identity [72, 73, 67] [103] 8 65 0 0 0 w9NewAttrs w9NewAttrs
    [] [] [] [] [] [] [] w9Entries [] [] []
    (by decide) (by decide) (by decide) (by decide) (by decide) (by decide) (by decide)
    (by decide) (by decide) (by decide) (by decide) (by decide) (by decide) (by decide)
    (by decide) (by decide) (by decide) (by decide) hbuild (by decide) (by decide)
    (by decide) (by decide) (by decide) (by decide) (by decide)
    (fun hc => absurd hc (by decide)) (fun hc => absurd hc (by decide)) rfl rfl
  exact ⟨hbuild, rfl, h⟩

/-- Attribute list of the C5 counterexample file. -/
def c5Attrs : List AttrKV :=
  [⟨softwareKey, []⟩, ⟨statisticsKey, []⟩, ⟨graphsKey, [118]⟩, ⟨statisticsKey, [10]⟩]

/-- Contents of the graphs value file of the C5 counterexample. -/
def c5GraphContent : List Byte := [118, 0] ++ statisticsKey ++ [0]

/-- The edited attribute list of the C5 counterexample. -/
def c5NewAttrs : List AttrKV :=
  [⟨softwareKey, []⟩, ⟨statisticsKey, []⟩,
    ⟨graphsKey, [118, 0] ++ statisticsKey ++ [0, 10]⟩]

/-- The C5 counterexample input file. -/
def c5File : List Byte :=
  mkHeader [72, 73, 67] 8 78 [103] 0 0 c5Attrs ++ mkChrDict 8 [] ++ mkResArray [] ++
    mkResArray [] ++ ([] ++ (mkMasterIndex 8 0 [] ++ []))

/-- The output the run produces for the C5 counterexample. -/
def c5Out : List Byte :=
  mkHeader [72, 73, 67] 8 78 [103] 0 0 c5NewAttrs ++ mkChrDict 8 [] ++ mkResArray [] ++
    mkResArray [] ++ ([] ++ (mkMasterIndex 8 0 [] ++ []))

set_option maxRecDepth 4000 in
/-- C5 counterexample: the edit produces a new list whose serialized
encoding is byte-identical to the original's, the delta is zero, yet the
output file differs from the input in the attribute-count field (four
entries became three). -/
theorem c5_counterexample :
    serializeAttrs c5NewAttrs = serializeAttrs c5Attrs ∧
    buildNewAttrs c5Attrs (load_value_file_text []) (load_value_file_text c5GraphContent) =
      some c5NewAttrs ∧
    runProgram c5File [] c5GraphContent = .success c5Out 0 ∧
    c5Out ≠ c5File := by
  have hstat : load_value_file_text ([] : List Byte) = [] := by
    simp [load_value_file_text]
  have hgraph : load_value_file_text c5GraphContent =
      [118, 0] ++ statisticsKey ++ [0, 10] := by
    rw [load_value_file_text_eq]
    decide
  refine ⟨by decide, ?_, ?_, by decide⟩
  · rw [hstat, hgraph]
    decide
  · unfold runProgram
    rw [hstat, hgraph]
    decide

/-! ## End-of-input behavior of pass 1 (C++ stream semantics)

The reader of lines 88-184 checks for end of input only inside `readPush`
(line 93).  All other reads (`fin.read(tmp4,4)`, `fin.read(tmp8,8)`, the
raw byte loops of lines 136-137 and 153-156) never test the stream, so on
a short read the C++ stream sets its failbit, stores only the bytes that
were available, and leaves the target variables otherwise unchanged; every
later read is a no-op.  The model below reproduces exactly that. -/

/-- C++ stream state: remaining input, failbit, and the current contents
of the variables `c`, `tmp4` and `tmp8`, which keep their old bytes when
a read comes up short. -/
structure CppStream where
  rem : List Byte
  fail : Bool
  c : Byte
  tmp4 : List Byte
  tmp8 : List Byte
deriving DecidableEq

/-- `fin.read(tmp4,4)`: stores the available bytes, keeps the old tail of
`tmp4`, sets the failbit when fewer than 4 bytes remain; a no-op once the
stream has failed. -/
def readBuf4 (s : CppStream) : CppStream :=
  if s.fail then s
  else
    let taken := s.rem.take 4
    { s with tmp4 := taken ++ s.tmp4.drop taken.length,
             rem := s.rem.drop 4,
             fail := decide (s.rem.length < 4) }

/-- `fin.read(tmp8,8)`: as `readBuf4` with 8 bytes into `tmp8`. -/
def readBuf8 (s : CppStream) : CppStream :=
  if s.fail then s
  else
    let taken := s.rem.take 8
    { s with tmp8 := taken ++ s.tmp8.drop taken.length,
             rem := s.rem.drop 8,
             fail := decide (s.rem.length < 8) }

/-- The checked `do readPush while c != 0` loops of lines 99 and 113:
`none` is the `exit(1)` of `readPush` on end of input (the format-error
path).  The fuel only bounds iterations; each non-final iteration consumes
one input byte, so any fuel above `s.rem.length` is never exhausted. -/
def readPushLoopF : Nat → CppStream → Option CppStream
  | 0, _ => none
  | fuel + 1, s =>
      if s.fail then none
      else match s.rem with
        | [] => none
        | b :: r =>
            let s1 : CppStream := { s with c := b, rem := r }
            if b = 0 then some s1 else readPushLoopF fuel s1

/-- The unchecked byte loops of lines 136-137 and 153-156: read a byte,
stop at NUL.  At end of input `c` keeps its stale value, so the loop
terminates (with an empty remainder) only when that stale value is NUL
and otherwise never terminates: `none` marks that infinite loop.  The
fuel only bounds iterations as in `readPushLoopF`. -/
def rawStringLoopF : Nat → CppStream → Option (List Byte × CppStream)
  | 0, _ => none
  | fuel + 1, s =>
      if s.fail then (if s.c = 0 then some ([], s) else none)
      else match s.rem with
        | [] => if s.c = 0 then some ([], { s with fail := true }) else none
        | b :: r =>
            let s1 : CppStream := { s with c := b, rem := r }
            if b = 0 then some ([], s1)
            else match rawStringLoopF fuel s1 with
              | none => none
              | some (str, s2) => some (b :: str, s2)

/-- The attribute loop of lines 134-139 under stream semantics; `none`
propagates a hanging byte loop. -/
def readAttrsCpp : Nat → CppStream → Option (List AttrKV × CppStream)
  | 0, s => some ([], s)
  | n + 1, s => do
      let (k, s1) ← rawStringLoopF (s.rem.length + 1) s
      let (v, s2) ← rawStringLoopF (s1.rem.length + 1) s1
      let (rest, s3) ← readAttrsCpp n s2
      some (⟨k, v⟩ :: rest, s3)

/-- The chromosome loop of lines 151-164 under stream semantics. -/
def readChrsCpp (version : Int) : Nat → CppStream → Option CppStream
  | 0, s => some s
  | n + 1, s => do
      let (_, s1) ← rawStringLoopF (s.rem.length + 1) s
      let s2 := if version > 8 then readBuf8 s1 else readBuf4 s1
      readChrsCpp version n s2

/-- One resolution loop of lines 173-175 / 180-182 under stream
semantics: `n` unchecked 4-byte reads. -/
def readResCpp : Nat → CppStream → CppStream
  | 0, s => s
  | n + 1, s => readResCpp n (readBuf4 s)

/-- Outcome of pass 1 under full stream semantics. -/
inductive ReadOutcome where
  | formatError
  | hangs
  | done (version : Int) (origAttrs : List AttrKV) (failbit : Bool)
deriving DecidableEq

/-- Pass 1 (lines 88-184) with end-of-input semantics.  `formatError` is
the `Unexpected EOF` exit of `readPush`; `hangs` marks an unchecked byte
loop that can never terminate; `done` means the reader ran to completion,
with the failbit recording whether any read came up short — a condition
the source never tests outside `readPush`.  The initial contents of `c`,
`tmp4`, `tmp8` are parameters because C++ leaves them indeterminate. -/
def readHeaderStream (input : List Byte) (c0 : Byte) (tmp40 tmp80 : List Byte) :
    ReadOutcome :=
  let s0 : CppStream := { rem := input, fail := false, c := c0, tmp4 := tmp40, tmp8 := tmp80 }
  match readPushLoopF (s0.rem.length + 1) s0 with
  | none => .formatError
  | some s1 =>
      let s2 := readBuf4 s1
      let version := readInt32LE s2.tmp4
      let s3 := readBuf8 s2
      match readPushLoopF (s3.rem.length + 1) s3 with
      | none => .formatError
      | some s4 =>
          let s5 := if version > 8 then readBuf8 (readBuf8 s4) else s4
          let s6 := readBuf4 s5
          let origAttrCount := readInt32LE s6.tmp4
          match readAttrsCpp origAttrCount.toNat s6 with
          | none => .hangs
          | some (attrs, s7) =>
              let s8 := readBuf4 s7
              match readChrsCpp version (readInt32LE s8.tmp4).toNat s8 with
              | none => .hangs
              | some s9 =>
                  let s10 := readBuf4 s9
                  let s11 := readResCpp (readInt32LE s10.tmp4).toNat s10
                  let s12 := readBuf4 s11
                  let s13 := readResCpp (readInt32LE s12.tmp4).toNat s12
                  .done version attrs s13.fail

/-- A header truncated immediately after the attribute-count field, which
announces one attribute. -/
def c6TruncatedFile : List Byte :=
  [72, 73, 67, 0] ++ writeInt32LE 8 ++ writeInt64LE 60 ++ [103, 0] ++ writeInt32LE 1

/-- A header truncated in the middle of the first attribute key. -/
def c6TruncatedKeyFile : List Byte := c6TruncatedFile ++ [107]

/-- C6: the code is the defect.  On an input that ends before the declared
attribute is complete, the reader does not fail with a format error: it
fabricates an empty attribute from the stale NUL in `c`, runs to
completion with the failbit silently set, and control continues into the
edit; and on an input that ends inside a key string, the unchecked read
loop of line 136 never terminates at all.  Only the `readPush`-guarded
magic and genome-ID reads can raise the format error the spec requires
for every truncation point. -/
theorem c6_truncation_not_a_format_error :
    readHeaderStream c6TruncatedFile 0 [0, 0, 0, 0] [0, 0, 0, 0, 0, 0, 0, 0] =
      .done 8 [⟨[], []⟩] true ∧
    readHeaderStream c6TruncatedFile 0 [0, 0, 0, 0] [0, 0, 0, 0, 0, 0, 0, 0] ≠
      .formatError ∧
    readHeaderStream c6TruncatedKeyFile 0 [0, 0, 0, 0] [0, 0, 0, 0, 0, 0, 0, 0] =
      .hangs := by
  refine ⟨by decide, by decide, by decide⟩
